import Mathlib

/-!
# Stack sub-sampling (`pic::SubSampleStack`)

A shallow embedding of `include/algorithms/sub_sample_stack.hpp` and the
properties of its two sampling strategies, of the outlier pass and of the
packed output buffer.

Conventions of the embedding

* A `float` is a binary32 number, given as the rational it denotes. Every
  operation the source performs in `float` (the conversions `float(i)` and
  `float(nSamples - 1)`, the quotient `u`, the product `fetched * 255.0f`, the
  assignment of the result of `lround` to `float tmp`, the thresholds of the
  outlier pass) is the exact operation followed by `float32`, the rounding to
  the nearest binary32 number, ties to even. Comparisons of floats are the
  comparisons of the rationals. The exponent of `float32` is not bounded: the
  only operation that can leave the binary32 range is the product
  `fetched * 255.0f`, and a product that overflows or underflows gives, after
  `lround` and the conversions, the same stored value as its unbounded rounding
  (0 in both cases). Pixels and cumulative bins are finite floats.
* A conversion to `long` or to `int` of a value that the type does not hold is
  undefined in C++; it has here the value the x86 conversion instruction gives
  (the least value of the type), which is what the compiled code stores.
* `int` and `unsigned int` counters are natural numbers. The only signed value
  that can be negative on entry is the requested sample count of `Compute`,
  which is an integer and is tested with `nSamples > 1` before it is stored.
  Sizes are assumed to fit the machine word: when the product
  `nSamples * channels * exposures` does not, the C++ allocation is shorter
  than the number of writes and the program has no defined behaviour.
* `int *samples` is `Option (List Int)`: `none` is `NULL`, `some buf` is an
  allocated array. `new int[N]` is a list of `N` cells; the cells are
  indeterminate in C++ and hold `0` here, and every one of them is overwritten
  before it is read.
* The loops keep their running index `c` and write with `List.set`, exactly as
  the source writes `samples[c]` and then increments `c`.
-/

namespace pic

/-! ## Collaborators that are declared outside the translated header -/

/-- Modelled from the spec: the `CLAMPi(x, a, b)` utility of `util/math.hpp`, which is not
among the sources; it clamps an integer into the closed range from `a` to `b`. -/
def CLAMPi (x a b : Int) : Int :=
  if x < a then a else if x > b then b else x

/-- Modelled from the spec: the image representation of `image.hpp`, which is not among the
sources. An image exposes its width, height, channel count and a read accessor giving the
float stored for channel `k` of the pixel at `(x, y)`; `pixel x y k` is `(*img)(x, y)[k]`, a
finite binary32 number given as the rational it denotes. -/
structure Image where
  width : Nat
  height : Nat
  channels : Nat
  pixel : Int → Int → Nat → ℚ

instance : Inhabited Image := ⟨⟨0, 0, 0, fun _ _ _ => 0⟩⟩

/-- Modelled from the spec: a `Histogram` object of `histogram.hpp`, which is not among the
sources, after `Calculate` and `cumulativef(true)`: `getCumulativef` is the `float *` to its
cumulative, normalised bins, read by offset; each bin is a finite binary32 number given as the
rational it denotes. -/
structure Histogram where
  getCumulativef : Nat → ℚ

instance : Inhabited Histogram := ⟨⟨fun _ => 0⟩⟩

/-- The enumeration `SAMPLER_TYPE` of `point_samplers/sampler_random.hpp`, carried as its
integer tag. -/
abbrev SAMPLER_TYPE := Int

/-- Modelled from the spec: a `RandomSampler<2>` of `point_samplers/sampler_random.hpp`, which
is not among the sources: the number of samples it holds at a level (a count, hence a natural
number), and the coordinate `(x, y)` of sample `i` of a level. -/
structure RandomSampler where
  getSamplesPerLevel : Nat → Nat
  getSampleAt : Nat → Nat → Int × Int

/-- The external collaborators of the engine.
`histogram img nBin channel` is the histogram object obtained by
`h.Calculate(img, VS_LDR, nBin, channel); h.cumulativef(true)`.
`newRandomSampler sub_type (width, height) nSamples nLevels seed` is
`new RandomSampler<2>(sub_type, vec, nSamples, nLevels, seed)`. -/
structure Collaborators where
  histogram : Image → Nat → Nat → Histogram
  newRandomSampler : SAMPLER_TYPE → Nat × Nat → Nat → Nat → Nat → RandomSampler

/-! ## Library functions used by the header -/

/-- The loop of `std::upper_bound` on a random access range: `first` is the offset of the
current left end and `len` the length still to search; the first argument bounds the number
of iterations. -/
def upper_bound_loop (a : Nat → ℚ) (val : ℚ) : Nat → Nat → Nat → Nat
  | 0, first, _ => first
  | fuel + 1, first, len =>
    if 0 < len then
      let half := len / 2
      let middle := first + half
      if val < a middle then
        upper_bound_loop a val fuel first half
      else
        upper_bound_loop a val fuel (middle + 1) (len - half - 1)
    else first

/-- The call `std::upper_bound(a + first, a + last, val) - a`: binary search for the first
position of the range whose element is greater than `val`. The length halves at each step, so
`last - first` iterations are always enough. -/
def upper_bound (a : Nat → ℚ) (first last : Nat) (val : ℚ) : Nat :=
  upper_bound_loop a val (last - first) first (last - first)

/-- The C function `lround`: round to the nearest integer, halfway cases away from zero. -/
def lround (x : ℚ) : Int :=
  if 0 ≤ x then Int.floor (x + 1 / 2) else - Int.floor (- x + 1 / 2)

/-- Rounding of a rational to the nearest integer, ties to the even one. -/
def roundHalfEven (y : ℚ) : Int :=
  if y - Int.floor y < 1 / 2 then Int.floor y
  else if 1 / 2 < y - Int.floor y then Int.floor y + 1
  else if Int.floor y % 2 = 0 then Int.floor y else Int.floor y + 1

/-- The binary32 number nearest to `x`, ties to even: the value of a `float` that is assigned
the exact result `x` of a conversion or of an arithmetic operation. With `e` the exponent of
`x`, that is `2 ^ e ≤ |x| < 2 ^ (e + 1)`, the 24 bit significand is `x / 2 ^ (e - 23)` rounded
to an integer. -/
def float32 (x : ℚ) : ℚ :=
  if x = 0 then 0
  else (roundHalfEven (x / (2 : ℚ) ^ (Int.log 2 |x| - 23)) : ℚ) * (2 : ℚ) ^ (Int.log 2 |x| - 23)

/-- The `long` that `lround` returns when its mathematical result is `z`: `z` itself when it
fits in 64 bits, and the least `long` otherwise. -/
def asLong (z : Int) : Int :=
  if -9223372036854775808 ≤ z ∧ z < 9223372036854775808 then z else -9223372036854775808

/-- The conversion `int(x)` of a float: truncation toward zero when the truncated value fits
in 32 bits, and the least `int` otherwise. -/
def truncToInt (x : ℚ) : Int :=
  if -2147483648 ≤ Int.tdiv x.num x.den ∧ Int.tdiv x.num x.den < 2147483648
  then Int.tdiv x.num x.den else -2147483648

/-! ## The engine -/

/-- The data members of `SubSampleStack`. -/
structure SubSampleStack where
  bCheck : Bool
  exposures : Nat
  channels : Nat
  nSamples : Nat
  total : Nat
  samples : Option (List Int)
deriving DecidableEq

/-- The constructor `SubSampleStack()`. It does not assign `bCheck`, whose indeterminate
initial value is the argument. -/
def SubSampleStack.new (bCheck : Bool) : SubSampleStack :=
  { bCheck := bCheck, total := 0, exposures := 0, channels := 0, nSamples := 0, samples := none }

/-- The method `Destroy`. -/
def SubSampleStack.Destroy (self : SubSampleStack) : SubSampleStack :=
  { self with exposures := 0, channels := 0, nSamples := 0, total := 0, samples := none }

/-- The first loop nest of `Grossberg`: the array `h` of `exposures * channels` histograms,
filled at the running index `c`. -/
def SubSampleStack.GrossbergHistograms (env : Collaborators) (stack : List Image)
    (self : SubSampleStack) : Nat × List Histogram :=
  (List.range self.channels).foldl (fun st (j : Nat) =>
    (List.range self.exposures).foldl (fun st (i : Nat) =>
      (st.1 + 1, st.2.set st.1 (env.histogram (stack.getD i default) 256 j))) st)
    (0, List.replicate (self.exposures * self.channels) default)

/-- The second loop nest of `Grossberg`, from the initial index `c` and buffer in `st`. -/
def SubSampleStack.GrossbergSampling (h : List Histogram) (self : SubSampleStack)
    (st : Nat × List Int) : Nat × List Int :=
  let div : ℚ := float32 (((self.nSamples : Int) - 1 : Int) : ℚ)
  (List.range self.channels).foldl (fun st (k : Nat) =>
    (List.range self.nSamples).foldl (fun st (i : Nat) =>
      let u : ℚ := float32 (float32 (i : ℚ) / div)
      (List.range self.exposures).foldl (fun st (j : Nat) =>
        let ind := k * self.exposures + j
        let bin_c := (h.getD ind default).getCumulativef
        let ptr := upper_bound bin_c 0 256 u
        (st.1 + 1, st.2.set st.1 (CLAMPi ((ptr : Int) - 0) 0 255))) st) st) st

/-- The method `Grossberg`: histogram quantile sampling. -/
def SubSampleStack.Grossberg (env : Collaborators) (stack : List Image)
    (self : SubSampleStack) : SubSampleStack :=
  let h := (self.GrossbergHistograms env stack).2
  let samples : List Int := List.replicate (self.nSamples * self.channels * self.exposures) 0
  { self with samples := some (self.GrossbergSampling h (0, samples)).2 }

/-- The loop nest of `Spatial`, from the initial index `c` and buffer in `st`. The product
`fetched * 255.0f` is a float, the `long` result of `lround` is assigned to `float tmp`, and
`int(tmp)` is clamped. -/
def SubSampleStack.SpatialSampling (sampler : RandomSampler) (stack : List Image)
    (self : SubSampleStack) (st : Nat × List Int) : Nat × List Int :=
  (List.range self.channels).foldl (fun st (k : Nat) =>
    (List.range self.nSamples).foldl (fun st (i : Nat) =>
      let xy := sampler.getSampleAt 0 i
      (List.range stack.length).foldl (fun st (j : Nat) =>
        let fetched : ℚ := (stack.getD j default).pixel xy.1 xy.2 k
        let tmp : ℚ := float32 (asLong (lround (float32 (fetched * 255))))
        (st.1 + 1, st.2.set st.1 (CLAMPi (truncToInt tmp) 0 255))) st) st) st

/-- The method `Spatial`: sampling at the coordinates of a point sampler. -/
def SubSampleStack.Spatial (env : Collaborators) (stack : List Image) (sub_type : SAMPLER_TYPE)
    (self : SubSampleStack) : SubSampleStack :=
  let width := (stack.getD 0 default).width
  let height := (stack.getD 0 default).height
  let sampler := env.newRandomSampler sub_type (width, height) self.nSamples 1 0
  let self1 := { self with nSamples := sampler.getSamplesPerLevel 0 }
  let samples : List Int := List.replicate (self1.nSamples * self1.channels * self1.exposures) 0
  { self1 with samples := some (self1.SpatialSampling sampler stack (0, samples)).2 }

/-- The local `t_min_f` of `Compute`: the float `0.05f`. -/
def t_min_f : ℚ := float32 0.05

/-- The local `t_max_f` of `Compute`: the float `1.0f - t_min_f`. -/
def t_max_f : ℚ := float32 (1.0 - t_min_f)

/-- The local `t_min` of `Compute`: `int(t_min_f * 255.0f)`. -/
def t_min : Int := truncToInt (float32 (t_min_f * 255.0))

/-- The local `t_max` of `Compute`: `int(t_max_f * 255.0f)`. -/
def t_max : Int := truncToInt (float32 (t_max_f * 255.0))

/-- The outlier loop at the end of `Compute`, on an allocated buffer. -/
def SubSampleStack.outlierPass (total : Nat) (samples : List Int) : List Int :=
  (List.range total).foldl (fun samples (i : Nat) =>
    if samples.getD i 0 < t_min ∨ samples.getD i 0 > t_max then samples.set i (-1)
    else samples) samples

/-- The method `Compute`. -/
def SubSampleStack.Compute (env : Collaborators) (self : SubSampleStack) (stack : List Image)
    (nSamples : Int) (bRemoveOutliers : Bool) (bSpatial : Bool) (sub_type : SAMPLER_TYPE) :
    SubSampleStack :=
  let self := self.Destroy
  let bCheck := decide (stack.length > 1)
  let bCheck := bCheck && decide (nSamples > 1)
  let self := { self with bCheck := bCheck }
  if !bCheck then self
  else
    let self := { self with nSamples := nSamples.toNat }
    let self := { self with channels := (stack.getD 0 default).channels }
    let self := { self with exposures := stack.length }
    let self := if bSpatial then self.Spatial env stack sub_type else self.Grossberg env stack
    if bRemoveOutliers then
      let total := self.nSamples * self.channels * self.exposures
      { self with total := total, samples := self.samples.map (SubSampleStack.outlierPass total) }
    else self

/-- The accessor `get`. -/
def SubSampleStack.get (self : SubSampleStack) : Option (List Int) := self.samples

/-- The accessor `getNSamples`. -/
def SubSampleStack.getNSamples (self : SubSampleStack) : Nat := self.nSamples

/-! ## Specification-side definitions -/

/-- The effect of a loop (or loop body) `f` on the running index and the buffer: it advances
the index by `m`, keeps the length of the buffer, writes `g r` at offset `r` of the block of
`m` cells starting at the index, and leaves every other cell as it was. -/
def Writes {α : Type} (f : Nat × List α → Nat × List α) (m : Nat) (g : Nat → α) : Prop :=
  ∀ st : Nat × List α,
    (f st).1 = st.1 + m ∧ (f st).2.length = st.2.length ∧
    ∀ idx : Nat, (f st).2[idx]? =
      if st.1 ≤ idx ∧ idx < st.1 + m ∧ idx < st.2.length then some (g (idx - st.1))
      else st.2[idx]?

/-- The quantile of slot `i` among `nSamples` slots, as `Grossberg` computes it: the float
`u = float(i) / float(nSamples - 1)`. -/
def quantile (nSamples i : Nat) : ℚ :=
  float32 (float32 (i : ℚ) / float32 (((nSamples : Int) - 1 : Int) : ℚ))

/-- The value `Grossberg` stores for one slot and one cumulative array `bin_c`. -/
def quantileSample (bin_c : Nat → ℚ) (nSamples i : Nat) : Int :=
  CLAMPi ((upper_bound bin_c 0 256 (quantile nSamples i) : Nat) : Int) 0 255

/-- The value `Spatial` stores for channel `k` of one image at the coordinate `xy`. -/
def spatialSample (img : Image) (xy : Int × Int) (k : Nat) : Int :=
  CLAMPi (truncToInt (float32 (asLong (lround (float32 (img.pixel xy.1 xy.2 k * 255)))))) 0 255

/-- The decision of the outlier loop on one entry. -/
def outlierValue (v : Int) : Int :=
  if v < t_min ∨ v > t_max then -1 else v

/-- The sample that `Compute` produces for channel `k`, slot `i` and exposure `j`, before the
outlier loop: from the cumulative histogram of channel `k` of `stack[j]` in the quantile
strategy, from the pixel of `stack[j]` at the `i`-th coordinate of the point sampler in the
spatial strategy. -/
def producedSample (env : Collaborators) (stack : List Image) (nSamples : Int) (bSpatial : Bool)
    (sub_type : SAMPLER_TYPE) (k i j : Nat) : Int :=
  if bSpatial then
    spatialSample (stack.getD j default)
      ((env.newRandomSampler sub_type ((stack.getD 0 default).width, (stack.getD 0 default).height)
        nSamples.toNat 1 0).getSampleAt 0 i) k
  else
    quantileSample (env.histogram (stack.getD j default) 256 k).getCumulativef nSamples.toNat i

/-- The sample count that `Compute` ends with on a valid input: the count of the point sampler
in the spatial strategy, the requested count in the quantile strategy. -/
def actualSamples (env : Collaborators) (stack : List Image) (nSamples : Int) (bSpatial : Bool)
    (sub_type : SAMPLER_TYPE) : Nat :=
  if bSpatial then
    (env.newRandomSampler sub_type ((stack.getD 0 default).width, (stack.getD 0 default).height)
      nSamples.toNat 1 0).getSamplesPerLevel 0
  else nSamples.toNat

/-! ## The histogram collaborator as the specification describes it -/

/-- Modelled from the spec: the quantizer shared by the strategies, which maps a floating
intensity to an integer in the range from 0 to 255: scale by 255, round to nearest, clamp. -/
def quantize (v : ℚ) : Nat :=
  (CLAMPi (lround (v * 255)) 0 255).toNat

/-- Modelled from the spec: `computeHistogram(image, valueDomainHint, binCount, channel)` of
`histogram.hpp`, which is not among the sources: bin `b` counts the pixels of the image whose
value in the channel is quantized to `b` by `quant`. -/
def Histogram.Calculate (quant : ℚ → Nat) (img : Image) (nBin channel : Nat) : List Nat :=
  (List.range nBin).map (fun (b : Nat) =>
    ((List.range img.height).map (fun (y : Nat) =>
      ((List.range img.width).filter (fun (x : Nat) =>
        decide (quant (img.pixel x y channel) = b))).length)).sum)

/-- Modelled from the spec: `cumulative(counts, normalize)` of `histogram.hpp`, which is not
among the sources: entry `b` is the sum of the counts of the bins up to `b`, divided by the
final cumulative value when `bNormalized` is set. -/
def Histogram.cumulativef (bin : List Nat) (bNormalized : Bool) : Nat → ℚ :=
  fun b =>
    if bNormalized then (((bin.take (b + 1)).sum : Nat) : ℚ) / ((bin.sum : Nat) : ℚ)
    else (((bin.take (b + 1)).sum : Nat) : ℚ)

/-- Modelled from the spec: the collaborators whose histograms are the normalised cumulative
sums of the counts given by `counts img nBin channel`. -/
def specCollaborators (counts : Image → Nat → Nat → List Nat)
    (newRandomSampler : SAMPLER_TYPE → Nat × Nat → Nat → Nat → Nat → RandomSampler) :
    Collaborators :=
  { histogram := fun img nBin channel => ⟨Histogram.cumulativef (counts img nBin channel) true⟩,
    newRandomSampler := newRandomSampler }

/-! ## Concrete inputs -/

/-- A single-channel image of 2 by 2 pixels that all hold the value `v`. -/
def constImage (v : ℚ) : Image :=
  ⟨2, 2, 1, fun _ _ _ => v⟩

/-- A point sampler that holds `m` samples, all at the origin, whatever count is requested. -/
def fixedSampler (m : Nat) : SAMPLER_TYPE → Nat × Nat → Nat → Nat → Nat → RandomSampler :=
  fun _ _ _ _ _ => ⟨fun _ => m, fun _ _ => (0, 0)⟩

/-- The collaborators of the concrete runs: histograms counted with `quantize`, and a point
sampler that holds three samples. -/
def sampleEnv : Collaborators :=
  specCollaborators (Histogram.Calculate quantize) (fixedSampler 3)

/-- An engine that already holds a buffer from an earlier run. -/
def usedEngine : SubSampleStack :=
  { bCheck := true, exposures := 2, channels := 1, nSamples := 2, total := 4,
    samples := some [7, 7, 7, 7] }

/-- Two constant exposures: all pixels 0, and all pixels 1. -/
def twoExposures : List Image :=
  [constImage 0, constImage 1]

/-- Three constant exposures: all pixels 0, all pixels 1/2, and all pixels 1. -/
def threeExposures : List Image :=
  [constImage 0, constImage (1 / 2), constImage 1]

/-- The collaborators whose every histogram has exactly one count in each bin. -/
def uniformEnv : Collaborators :=
  specCollaborators (fun _ nBin _ => List.replicate nBin 1) (fixedSampler 3)

/-- A point sampler that holds `m` samples at the origin and answers `(1, 1)` for every index
past its count. -/
def boundedSampler (m : Nat) : SAMPLER_TYPE → Nat × Nat → Nat → Nat → Nat → RandomSampler :=
  fun _ _ _ _ _ => ⟨fun _ => m, fun _ i => if i < m then (0, 0) else (1, 1)⟩

/-! ## The loop nests with a log of their accesses -/

theorem writes_set {α : Type} (v : α) :
    Writes (fun st : Nat × List α => (st.1 + 1, st.2.set st.1 v)) 1 (fun _ => v) := by
  intro st
  refine ⟨rfl, by simp, ?_⟩
  intro idx
  simp only [List.getElem?_set]
  by_cases h : st.1 = idx
  · subst h
    by_cases h2 : st.1 < st.2.length
    · simp [h2]
    · simp [h2]
      omega
  · have : ¬ (st.1 ≤ idx ∧ idx < st.1 + 1 ∧ idx < st.2.length) := by omega
    simp [h, this]

theorem writes_congr {α : Type} {f : Nat × List α → Nat × List α} {m : Nat} {g g2 : Nat → α}
    (h : Writes f m g) (hg : ∀ r, r < m → g r = g2 r) : Writes f m g2 := by
  intro st
  obtain ⟨h1, h2, h3⟩ := h st
  refine ⟨h1, h2, ?_⟩
  intro idx
  rw [h3 idx]
  by_cases hc : st.1 ≤ idx ∧ idx < st.1 + m ∧ idx < st.2.length
  · simp only [hc, and_self, if_true]
    rw [hg (idx - st.1) (by omega)]
  · simp only [hc, if_false]

theorem writes_foldl {α : Type} (F : Nat → Nat × List α → Nat × List α) (m : Nat)
    (G : Nat → Nat → α) (n : Nat) (hF : ∀ i, i < n → Writes (F i) m (G i)) :
    Writes (fun st => (List.range n).foldl (fun st (i : Nat) => F i st) st) (n * m)
      (fun r => G (r / m) (r % m)) := by
  induction n with
  | zero =>
    intro st
    refine ⟨by simp, by simp, ?_⟩
    intro idx
    simp only [List.range_zero, List.foldl_nil, Nat.zero_mul, Nat.add_zero]
    rw [if_neg (by omega)]
  | succ n ih =>
    have ih2 := ih (fun i hi => hF i (Nat.lt_succ_of_lt hi))
    intro st
    simp only [List.range_succ, List.foldl_append, List.foldl_cons, List.foldl_nil]
    obtain ⟨a1, a2, a3⟩ := ih2 st
    obtain ⟨b1, b2, b3⟩ := hF n (Nat.lt_succ_self n) ((List.range n).foldl (fun st (i : Nat) => F i st) st)
    simp only at a1 a2 a3
    refine ⟨?_, ?_, ?_⟩
    · rw [b1, a1, Nat.succ_mul]; omega
    · rw [b2, a2]
    · intro idx
      rw [b3 idx, a1, a2, a3 idx]
      have e : (n + 1) * m = n * m + m := Nat.succ_mul n m
      by_cases hc : st.1 + n * m ≤ idx ∧ idx < st.1 + n * m + m ∧ idx < st.2.length
      · have hc2 : st.1 ≤ idx ∧ idx < st.1 + (n + 1) * m ∧ idx < st.2.length := by omega
        simp only [hc, hc2, and_self, if_true]
        have hd : (idx - st.1) / m = n := by
          apply Nat.div_eq_of_lt_le
          · omega
          · rw [Nat.succ_mul]; omega
        have hmod : (idx - st.1) % m = idx - (st.1 + n * m) := by
          have := Nat.mod_add_div (idx - st.1) m
          rw [hd, Nat.mul_comm] at this
          omega
        rw [hd, hmod]
      · simp only [hc, if_false]
        by_cases hc3 : st.1 ≤ idx ∧ idx < st.1 + n * m ∧ idx < st.2.length
        · have hc2 : st.1 ≤ idx ∧ idx < st.1 + (n + 1) * m ∧ idx < st.2.length := by omega
          simp only [hc3, hc2, and_self, if_true]
        · have hc2 : ¬ (st.1 ≤ idx ∧ idx < st.1 + (n + 1) * m ∧ idx < st.2.length) := by omega
          simp only [hc3, hc2, if_false]

theorem writes_foldl_set {α : Type} (v : Nat → α) (n : Nat) :
    Writes (fun st : Nat × List α =>
      (List.range n).foldl (fun st (j : Nat) => (st.1 + 1, st.2.set st.1 (v j))) st) n v := by
  have h := writes_foldl (fun j (st : Nat × List α) => (st.1 + 1, st.2.set st.1 (v j))) 1
    (fun j _ => v j) n (fun j _ => writes_set (v j))
  rw [Nat.mul_one] at h
  exact writes_congr h (fun r _ => by simp)

theorem writes_get {α : Type} {f : Nat × List α → Nat × List α} {m : Nat} {g : Nat → α}
    (h : Writes f m g) (buf : List α) (hlen : buf.length = m) (r : Nat) (hr : r < m) :
    (f (0, buf)).2[r]? = some (g r) := by
  obtain ⟨_, _, h3⟩ := h (0, buf)
  rw [h3 r, if_pos ⟨Nat.zero_le r, by simpa using hr, by simpa [hlen] using hr⟩]
  rfl

theorem block_div (k E j : Nat) (hj : j < E) : (k * E + j) / E = k := by
  apply Nat.div_eq_of_lt_le
  · omega
  · rw [Nat.succ_mul]; omega

theorem block_mod (k E j : Nat) (hj : j < E) : (k * E + j) % E = j := by
  rw [Nat.add_comm, Nat.add_mul_mod_self_right]
  exact Nat.mod_eq_of_lt hj

theorem block_lt (C E k j : Nat) (hk : k < C) (hj : j < E) : k * E + j < C * E := by
  have : (k + 1) * E ≤ C * E := Nat.mul_le_mul_right E hk
  rw [Nat.succ_mul] at this
  omega

/-! ## Rounding to binary32 -/

theorem roundHalfEven_near (y : ℚ) : |((roundHalfEven y : Int) : ℚ) - y| ≤ 1 / 2 := by
  have h1 := Int.floor_le y
  have h2 := Int.lt_floor_add_one y
  unfold roundHalfEven
  rw [abs_le]
  split_ifs <;> push_cast <;> constructor <;> linarith

theorem roundHalfEven_of_near (y : ℚ) (m : Int) (h : |y - (m : ℚ)| < 1 / 2) :
    roundHalfEven y = m := by
  obtain ⟨h1, h2⟩ := abs_lt.mp h
  have hn := roundHalfEven_near y
  obtain ⟨n1, n2⟩ := abs_le.mp hn
  have hlt : |((roundHalfEven y : Int) : ℚ) - (m : ℚ)| < 1 := by
    rw [abs_lt]
    constructor <;> linarith
  have hz : |roundHalfEven y - m| < 1 := by exact_mod_cast hlt
  have := Int.abs_lt_one_iff.mp hz
  omega

theorem roundHalfEven_intCast (z : Int) : roundHalfEven (z : ℚ) = z :=
  roundHalfEven_of_near _ z (by simp)

theorem roundHalfEven_mono (y1 y2 : ℚ) (h : y1 ≤ y2) : roundHalfEven y1 ≤ roundHalfEven y2 := by
  have hf : Int.floor y1 ≤ Int.floor y2 := Int.floor_mono h
  have a1 := Int.floor_le y1
  have a2 := Int.lt_floor_add_one y1
  have b1 := Int.floor_le y2
  have b2 := Int.lt_floor_add_one y2
  have hup : roundHalfEven y1 ≤ Int.floor y1 + 1 := by
    unfold roundHalfEven
    split_ifs <;> omega
  have hlo : Int.floor y2 ≤ roundHalfEven y2 := by
    unfold roundHalfEven
    split_ifs <;> omega
  by_cases hlt : Int.floor y1 < Int.floor y2
  · omega
  · have he : Int.floor y2 = Int.floor y1 := by omega
    unfold roundHalfEven
    rw [he]
    rw [he] at b1 b2
    split_ifs <;> first | omega | (exfalso; linarith)


theorem pow_split (e : Int) : (2 : ℚ) ^ (e - 23) * 8388608 = (2 : ℚ) ^ e := by
  have h : (2 : ℚ) ^ (e - 23) * (2 : ℚ) ^ (23 : Int) = (2 : ℚ) ^ e := by
    rw [← zpow_add₀ (by norm_num : (2 : ℚ) ≠ 0)]
    congr 1
    omega
  have h23 : (2 : ℚ) ^ (23 : Int) = 8388608 := by norm_num
  rw [h23] at h
  exact h

theorem pow_succ_split (e : Int) : (2 : ℚ) ^ (e - 23) * 16777216 = (2 : ℚ) ^ (e + 1) := by
  have h : (2 : ℚ) ^ (e - 23) * (2 : ℚ) ^ (24 : Int) = (2 : ℚ) ^ (e + 1) := by
    rw [← zpow_add₀ (by norm_num : (2 : ℚ) ≠ 0)]
    congr 1
    omega
  have h24 : (2 : ℚ) ^ (24 : Int) = 16777216 := by norm_num
  rw [h24] at h
  exact h

theorem pow_pos2 (e : Int) : (0 : ℚ) < (2 : ℚ) ^ e := zpow_pos (by norm_num) e

theorem log_bounds (x : ℚ) (hx : 0 < x) :
    (2 : ℚ) ^ Int.log 2 x ≤ x ∧ x < (2 : ℚ) ^ (Int.log 2 x + 1) := by
  have h1 := Int.zpow_log_le_self (b := 2) (r := x) (by norm_num) hx
  have h2 := Int.lt_zpow_succ_log_self (b := 2) (by norm_num) x
  exact ⟨by exact_mod_cast h1, by exact_mod_cast h2⟩

theorem log_unique (x : ℚ) (e : Int) (hx : 0 < x) (h1 : (2 : ℚ) ^ e ≤ x)
    (h2 : x < (2 : ℚ) ^ (e + 1)) : Int.log 2 x = e := by
  have a : e ≤ Int.log 2 x :=
    (Int.zpow_le_iff_le_log (b := 2) (by norm_num) hx).mp (by exact_mod_cast h1)
  have b : Int.log 2 x < e + 1 :=
    (Int.lt_zpow_iff_log_lt (b := 2) (by norm_num) hx).mp (by exact_mod_cast h2)
  omega

theorem float32_pos_eq (x : ℚ) (hx : 0 < x) :
    float32 x = (roundHalfEven (x / (2 : ℚ) ^ (Int.log 2 x - 23)) : ℚ)
      * (2 : ℚ) ^ (Int.log 2 x - 23) := by
  unfold float32
  rw [if_neg (ne_of_gt hx), abs_of_pos hx]

theorem float32_zero : float32 0 = 0 := by
  unfold float32
  rw [if_pos rfl]

theorem scaled_bounds (x : ℚ) (hx : 0 < x) :
    (8388608 : ℚ) ≤ x / (2 : ℚ) ^ (Int.log 2 x - 23) ∧
    x / (2 : ℚ) ^ (Int.log 2 x - 23) < 16777216 := by
  obtain ⟨h1, h2⟩ := log_bounds x hx
  have hp := pow_pos2 (Int.log 2 x - 23)
  constructor
  · rw [le_div_iff₀ hp, mul_comm, pow_split]
    exact h1
  · rw [div_lt_iff₀ hp, mul_comm, pow_succ_split]
    exact h2

theorem float32_pos_bounds (x : ℚ) (hx : 0 < x) :
    (2 : ℚ) ^ Int.log 2 x ≤ float32 x ∧ float32 x ≤ (2 : ℚ) ^ (Int.log 2 x + 1) ∧
    |float32 x - x| ≤ (2 : ℚ) ^ (Int.log 2 x - 23) / 2 := by
  obtain ⟨s1, s2⟩ := scaled_bounds x hx
  have hp := pow_pos2 (Int.log 2 x - 23)
  have hlo : (8388608 : Int) ≤ roundHalfEven (x / (2 : ℚ) ^ (Int.log 2 x - 23)) := by
    have := roundHalfEven_mono _ _ (show ((8388608 : Int) : ℚ) ≤ _ from by exact_mod_cast s1)
    rw [roundHalfEven_intCast] at this
    exact this
  have hhi : roundHalfEven (x / (2 : ℚ) ^ (Int.log 2 x - 23)) ≤ (16777216 : Int) := by
    have := roundHalfEven_mono _ _
      (show x / (2 : ℚ) ^ (Int.log 2 x - 23) ≤ ((16777216 : Int) : ℚ) from by
        exact_mod_cast le_of_lt s2)
    rw [roundHalfEven_intCast] at this
    exact this
  have hloq : (8388608 : ℚ) ≤ (roundHalfEven (x / (2 : ℚ) ^ (Int.log 2 x - 23)) : ℚ) := by
    exact_mod_cast hlo
  have hhiq : (roundHalfEven (x / (2 : ℚ) ^ (Int.log 2 x - 23)) : ℚ) ≤ 16777216 := by
    exact_mod_cast hhi
  rw [float32_pos_eq x hx]
  refine ⟨?_, ?_, ?_⟩
  · rw [← pow_split, mul_comm ((2 : ℚ) ^ (Int.log 2 x - 23))]
    exact mul_le_mul_of_nonneg_right hloq (le_of_lt hp)
  · rw [← pow_succ_split, mul_comm ((2 : ℚ) ^ (Int.log 2 x - 23))]
    exact mul_le_mul_of_nonneg_right hhiq (le_of_lt hp)
  · have hn := roundHalfEven_near (x / (2 : ℚ) ^ (Int.log 2 x - 23))
    have hx2 : x = x / (2 : ℚ) ^ (Int.log 2 x - 23) * (2 : ℚ) ^ (Int.log 2 x - 23) := by
      field_simp
    have : (roundHalfEven (x / (2 : ℚ) ^ (Int.log 2 x - 23)) : ℚ)
        * (2 : ℚ) ^ (Int.log 2 x - 23) - x
        = ((roundHalfEven (x / (2 : ℚ) ^ (Int.log 2 x - 23)) : ℚ)
          - x / (2 : ℚ) ^ (Int.log 2 x - 23)) * (2 : ℚ) ^ (Int.log 2 x - 23) := by
      rw [sub_mul, ← hx2]
    rw [this, abs_mul, abs_of_pos hp]
    calc |(roundHalfEven (x / (2 : ℚ) ^ (Int.log 2 x - 23)) : ℚ)
          - x / (2 : ℚ) ^ (Int.log 2 x - 23)| * (2 : ℚ) ^ (Int.log 2 x - 23)
        ≤ 1 / 2 * (2 : ℚ) ^ (Int.log 2 x - 23) :=
          mul_le_mul_of_nonneg_right hn (le_of_lt hp)
      _ = (2 : ℚ) ^ (Int.log 2 x - 23) / 2 := by ring

theorem float32_pos (x : ℚ) (hx : 0 < x) : 0 < float32 x :=
  lt_of_lt_of_le (pow_pos2 _) (float32_pos_bounds x hx).1

theorem float32_nonneg (x : ℚ) (hx : 0 ≤ x) : 0 ≤ float32 x := by
  rcases eq_or_lt_of_le hx with h | h
  · rw [← h, float32_zero]
  · exact le_of_lt (float32_pos x h)

theorem float32_mono (x y : ℚ) (hx : 0 ≤ x) (h : x ≤ y) : float32 x ≤ float32 y := by
  rcases eq_or_lt_of_le hx with h0 | hpos
  · rw [← h0, float32_zero]
    exact float32_nonneg y (le_trans hx h)
  · have hy : 0 < y := lt_of_lt_of_le hpos h
    have hlog : Int.log 2 x ≤ Int.log 2 y := Int.log_mono_right hpos h
    rcases eq_or_lt_of_le hlog with he | hlt
    · rw [float32_pos_eq x hpos, float32_pos_eq y hy, he]
      have hp := pow_pos2 (Int.log 2 y - 23)
      have hm := roundHalfEven_mono (x / (2 : ℚ) ^ (Int.log 2 y - 23))
        (y / (2 : ℚ) ^ (Int.log 2 y - 23)) (div_le_div_of_nonneg_right h (le_of_lt hp))
      have hmq : (roundHalfEven (x / (2 : ℚ) ^ (Int.log 2 y - 23)) : ℚ)
          ≤ (roundHalfEven (y / (2 : ℚ) ^ (Int.log 2 y - 23)) : ℚ) := by exact_mod_cast hm
      exact mul_le_mul_of_nonneg_right hmq (le_of_lt hp)
    · have h1 := (float32_pos_bounds x hpos).2.1
      have h2 := (float32_pos_bounds y hy).1
      have h3 : (2 : ℚ) ^ (Int.log 2 x + 1) ≤ (2 : ℚ) ^ Int.log 2 y :=
        zpow_le_zpow_right₀ (by norm_num) (by omega)
      linarith

theorem float32_rel_error (x : ℚ) (hx : 0 < x) : |float32 x - x| ≤ x / 16777216 := by
  obtain ⟨_, _, h3⟩ := float32_pos_bounds x hx
  obtain ⟨l1, _⟩ := log_bounds x hx
  have : (2 : ℚ) ^ (Int.log 2 x - 23) / 2 = (2 : ℚ) ^ Int.log 2 x / 16777216 := by
    rw [← pow_split (Int.log 2 x)]
    ring
  rw [this] at h3
  have : (2 : ℚ) ^ Int.log 2 x / 16777216 ≤ x / 16777216 :=
    div_le_div_of_nonneg_right l1 (by norm_num)
  linarith

theorem float32_eval (x : ℚ) (e m : Int) (hx : 0 < x) (h1 : (2 : ℚ) ^ e ≤ x)
    (h2 : x < (2 : ℚ) ^ (e + 1)) (h3 : |x / (2 : ℚ) ^ (e - 23) - (m : ℚ)| < 1 / 2) :
    float32 x = (m : ℚ) * (2 : ℚ) ^ (e - 23) := by
  rw [float32_pos_eq x hx, log_unique x e hx h1 h2, roundHalfEven_of_near _ m h3]

theorem float32_exact (m : Nat) (k : Int) (hm : 0 < m) (hm2 : m < 16777216) :
    float32 ((m : ℚ) * (2 : ℚ) ^ k) = (m : ℚ) * (2 : ℚ) ^ k := by
  have hmq : (0 : ℚ) < (m : ℚ) := by exact_mod_cast hm
  have hx : (0 : ℚ) < (m : ℚ) * (2 : ℚ) ^ k := mul_pos hmq (pow_pos2 k)
  have hlt : (m : ℚ) * (2 : ℚ) ^ k < (2 : ℚ) ^ (k + 24) := by
    have : (2 : ℚ) ^ (k + 24) = 16777216 * (2 : ℚ) ^ k := by
      rw [zpow_add₀ (by norm_num : (2 : ℚ) ≠ 0)]
      norm_num
      ring
    rw [this]
    have hm3 : (m : ℚ) < 16777216 := by exact_mod_cast hm2
    exact mul_lt_mul_of_pos_right hm3 (pow_pos2 k)
  have hlog : Int.log 2 ((m : ℚ) * (2 : ℚ) ^ k) < k + 24 :=
    (Int.lt_zpow_iff_log_lt (b := 2) (by norm_num) hx).mp (by exact_mod_cast hlt)
  rw [float32_pos_eq _ hx]
  obtain ⟨d, hd⟩ : ∃ d : Nat, (d : Int) = k - (Int.log 2 ((m : ℚ) * (2 : ℚ) ^ k) - 23) :=
    ⟨(k - (Int.log 2 ((m : ℚ) * (2 : ℚ) ^ k) - 23)).toNat, Int.toNat_of_nonneg (by omega)⟩
  have hsplit : (2 : ℚ) ^ k = (2 : ℚ) ^ (d : Int)
      * (2 : ℚ) ^ (Int.log 2 ((m : ℚ) * (2 : ℚ) ^ k) - 23) := by
    rw [← zpow_add₀ (by norm_num : (2 : ℚ) ≠ 0)]
    congr 1
    omega
  have hq : (m : ℚ) * (2 : ℚ) ^ k / (2 : ℚ) ^ (Int.log 2 ((m : ℚ) * (2 : ℚ) ^ k) - 23)
      = (((m * 2 ^ d : Nat) : Int) : ℚ) := by
    rw [div_eq_iff (ne_of_gt (pow_pos2 _))]
    conv_lhs => rw [hsplit]
    push_cast
    rw [zpow_natCast]
    ring
  rw [hq, roundHalfEven_intCast, ← hq]
  field_simp

theorem float32_natCast (n : Nat) (h : n < 16777216) : float32 (n : ℚ) = (n : ℚ) := by
  rcases Nat.eq_zero_or_pos n with h0 | hp
  · rw [h0]
    exact float32_zero
  · have := float32_exact n 0 hp h
    simpa using this

theorem float32_one : float32 1 = 1 := by
  have := float32_natCast 1 (by norm_num)
  simpa using this

/-! ## The loop nests of the two strategies in closed form -/

theorem GrossbergHistograms_writes (env : Collaborators) (stack : List Image) (C E : Nat) :
    Writes (fun st : Nat × List Histogram => (List.range C).foldl (fun st (j : Nat) =>
      (List.range E).foldl (fun st (i : Nat) =>
        (st.1 + 1, st.2.set st.1 (env.histogram (stack.getD i default) 256 j))) st) st)
      (C * E) (fun r => env.histogram (stack.getD (r % E) default) 256 (r / E)) :=
  writes_foldl (fun j (st : Nat × List Histogram) => (List.range E).foldl (fun st (i : Nat) =>
      (st.1 + 1, st.2.set st.1 (env.histogram (stack.getD i default) 256 j))) st) E
    (fun j i => env.histogram (stack.getD i default) 256 j) C
    (fun j _ => writes_foldl_set (fun i => env.histogram (stack.getD i default) 256 j) E)

theorem GrossbergHistograms_getD (env : Collaborators) (stack : List Image)
    (self : SubSampleStack) (k j : Nat) (hk : k < self.channels) (hj : j < self.exposures) :
    (self.GrossbergHistograms env stack).2.getD (k * self.exposures + j) default
      = env.histogram (stack.getD j default) 256 k := by
  have h := writes_get (GrossbergHistograms_writes env stack self.channels self.exposures)
    (List.replicate (self.exposures * self.channels) default)
    (by rw [List.length_replicate, Nat.mul_comm]) (k * self.exposures + j)
    (block_lt _ _ _ _ hk hj)
  rw [block_div _ _ _ hj, block_mod _ _ _ hj] at h
  rw [List.getD_eq_getElem?_getD]
  unfold SubSampleStack.GrossbergHistograms
  rw [h]
  rfl

theorem GrossbergSampling_writes (h : List Histogram) (self : SubSampleStack) :
    Writes (self.GrossbergSampling h) (self.channels * (self.nSamples * self.exposures))
      (fun r => quantileSample
        (h.getD (r / (self.nSamples * self.exposures) * self.exposures
          + r % (self.nSamples * self.exposures) % self.exposures) default).getCumulativef
        self.nSamples (r % (self.nSamples * self.exposures) / self.exposures)) := by
  have inner : ∀ k i : Nat, Writes (fun st : Nat × List Int =>
      (List.range self.exposures).foldl (fun st (j : Nat) =>
        (st.1 + 1, st.2.set st.1 (CLAMPi
          (((upper_bound (h.getD (k * self.exposures + j) default).getCumulativef 0 256
            (float32 (float32 (i : ℚ) / float32 (((self.nSamples : Int) - 1 : Int) : ℚ))) : Nat) : Int) - 0) 0 255))) st)
      self.exposures
      (fun j => quantileSample (h.getD (k * self.exposures + j) default).getCumulativef
        self.nSamples i) := by
    intro k i
    refine writes_congr (writes_foldl_set _ self.exposures) ?_
    intro r _
    simp only [quantileSample, quantile, Int.sub_zero]
  have mid : ∀ k : Nat, Writes (fun st : Nat × List Int =>
      (List.range self.nSamples).foldl (fun st (i : Nat) =>
        (List.range self.exposures).foldl (fun st (j : Nat) =>
        (st.1 + 1, st.2.set st.1 (CLAMPi
          (((upper_bound (h.getD (k * self.exposures + j) default).getCumulativef 0 256
            (float32 (float32 (i : ℚ) / float32 (((self.nSamples : Int) - 1 : Int) : ℚ))) : Nat) : Int) - 0) 0 255))) st) st)
      (self.nSamples * self.exposures)
      (fun r => quantileSample
        (h.getD (k * self.exposures + r % self.exposures) default).getCumulativef
        self.nSamples (r / self.exposures)) := by
    intro k
    exact writes_foldl _ self.exposures
      (fun i j => quantileSample (h.getD (k * self.exposures + j) default).getCumulativef
        self.nSamples i) self.nSamples (fun i _ => inner k i)
  exact writes_foldl _ (self.nSamples * self.exposures)
    (fun k r => quantileSample
        (h.getD (k * self.exposures + r % self.exposures) default).getCumulativef
        self.nSamples (r / self.exposures)) self.channels (fun k _ => mid k)

theorem SpatialSampling_writes (sampler : RandomSampler) (stack : List Image)
    (self : SubSampleStack) :
    Writes (self.SpatialSampling sampler stack)
      (self.channels * (self.nSamples * stack.length))
      (fun r => spatialSample
        (stack.getD (r % (self.nSamples * stack.length) % stack.length) default)
        (sampler.getSampleAt 0 (r % (self.nSamples * stack.length) / stack.length))
        (r / (self.nSamples * stack.length))) := by
  have inner : ∀ k i : Nat, Writes (fun st : Nat × List Int =>
      (List.range stack.length).foldl (fun st (j : Nat) =>
        (st.1 + 1, st.2.set st.1 (CLAMPi (truncToInt (float32 (asLong (lround (float32 ((stack.getD j default).pixel
          (sampler.getSampleAt 0 i).1 (sampler.getSampleAt 0 i).2 k * 255)))))) 0 255))) st)
      stack.length
      (fun j => spatialSample (stack.getD j default) (sampler.getSampleAt 0 i) k) := by
    intro k i
    refine writes_congr (writes_foldl_set _ stack.length) ?_
    intro r _
    simp only [spatialSample]
  have mid : ∀ k : Nat, Writes (fun st : Nat × List Int =>
      (List.range self.nSamples).foldl (fun st (i : Nat) =>
        (List.range stack.length).foldl (fun st (j : Nat) =>
          (st.1 + 1, st.2.set st.1 (CLAMPi (truncToInt (float32 (asLong (lround (float32 ((stack.getD j default).pixel
            (sampler.getSampleAt 0 i).1 (sampler.getSampleAt 0 i).2 k * 255)))))) 0 255))) st) st)
      (self.nSamples * stack.length)
      (fun r => spatialSample (stack.getD (r % stack.length) default)
        (sampler.getSampleAt 0 (r / stack.length)) k) := by
    intro k
    exact writes_foldl _ stack.length
      (fun i j => spatialSample (stack.getD j default) (sampler.getSampleAt 0 i) k)
      self.nSamples (fun i _ => inner k i)
  exact writes_foldl _ (self.nSamples * stack.length)
    (fun k r => spatialSample (stack.getD (r % stack.length) default)
        (sampler.getSampleAt 0 (r / stack.length)) k) self.channels (fun k _ => mid k)

theorem index3 (C n E k i j : Nat) (hk : k < C) (hi : i < n) (hj : j < E) :
    k * (n * E) + i * E + j < C * (n * E) ∧
    (k * (n * E) + i * E + j) / (n * E) = k ∧
    (k * (n * E) + i * E + j) % (n * E) / E = i ∧
    (k * (n * E) + i * E + j) % (n * E) % E = j := by
  have hin : i * E + j < n * E := block_lt n E i j hi hj
  rw [Nat.add_assoc]
  refine ⟨block_lt C (n * E) k (i * E + j) hk hin, block_div _ _ _ hin, ?_, ?_⟩
  · rw [block_mod _ _ _ hin, block_div _ _ _ hj]
  · rw [block_mod _ _ _ hin, block_mod _ _ _ hj]

theorem Grossberg_samples (env : Collaborators) (stack : List Image) (self : SubSampleStack) :
    ∃ buf : List Int, (self.Grossberg env stack).samples = some buf ∧
      buf.length = self.nSamples * self.channels * self.exposures ∧
      ∀ k i j : Nat, k < self.channels → i < self.nSamples → j < self.exposures →
        buf[k * (self.nSamples * self.exposures) + i * self.exposures + j]? =
          some (quantileSample (env.histogram (stack.getD j default) 256 k).getCumulativef
            self.nSamples i) := by
  have W := GrossbergSampling_writes (self.GrossbergHistograms env stack).2 self
  refine ⟨_, rfl, ?_, ?_⟩
  · rw [(W _).2.1, List.length_replicate]
  · intro k i j hk hi hj
    obtain ⟨h1, h2, h3, h4⟩ := index3 self.channels self.nSamples self.exposures k i j hk hi hj
    have hg := writes_get W
      (List.replicate (self.nSamples * self.channels * self.exposures) 0)
      (by rw [List.length_replicate, Nat.mul_assoc, Nat.mul_left_comm]) _ h1
    rw [h2, h3, h4, GrossbergHistograms_getD env stack self k j hk hj] at hg
    exact hg

theorem Spatial_samples (env : Collaborators) (stack : List Image) (sub_type : SAMPLER_TYPE)
    (self : SubSampleStack) (hE : self.exposures = stack.length) (m : Nat)
    (hm : (env.newRandomSampler sub_type
      ((stack.getD 0 default).width, (stack.getD 0 default).height)
      self.nSamples 1 0).getSamplesPerLevel 0 = m) :
    ∃ buf : List Int, (self.Spatial env stack sub_type).samples = some buf ∧
      buf.length = m * self.channels * self.exposures ∧
      ∀ k i j : Nat, k < self.channels → i < m → j < self.exposures →
        buf[k * (m * self.exposures) + i * self.exposures + j]? =
          some (spatialSample (stack.getD j default)
            ((env.newRandomSampler sub_type
              ((stack.getD 0 default).width, (stack.getD 0 default).height)
              self.nSamples 1 0).getSampleAt 0 i) k) := by
  obtain ⟨bC, E, C, n, t, smp⟩ := self
  simp only at hE hm ⊢
  subst hE
  have W := SpatialSampling_writes (env.newRandomSampler sub_type
        ((stack.getD 0 default).width, (stack.getD 0 default).height) n 1 0) stack
      { bCheck := bC, exposures := stack.length, channels := C, nSamples := m, total := t,
        samples := smp }
  simp only at W
  refine ⟨_, by rw [SubSampleStack.Spatial, hm], ?_, ?_⟩
  · rw [(W _).2.1, List.length_replicate]
  · intro k i j hk hi hj
    obtain ⟨h1, h2, h3, h4⟩ := index3 C m stack.length k i j hk hi hj
    have hg := writes_get W (List.replicate (m * C * stack.length) 0)
      (by rw [List.length_replicate, Nat.mul_assoc, Nat.mul_left_comm]) _ h1
    rw [h2, h3, h4] at hg
    exact hg

/-! ## The outlier loop -/

theorem t_min_f_eq : t_min_f = 13421773 / 268435456 := by
  unfold t_min_f
  rw [float32_eval (0.05 : ℚ) (-5) 13421773 (by norm_num) (by norm_num) (by norm_num)
    (by norm_num [abs_lt])]
  norm_num

theorem t_max_f_eq : t_max_f = 15938355 / 16777216 := by
  unfold t_max_f
  rw [t_min_f_eq]
  have h : (1.0 : ℚ) - 13421773 / 268435456 = 255013683 / 268435456 := by norm_num
  rw [h, float32_eval (255013683 / 268435456 : ℚ) (-1) 15938355 (by norm_num) (by norm_num)
    (by norm_num) (by norm_num [abs_lt])]
  norm_num

theorem truncToInt_quarters (n : Int) (h0 : 0 ≤ n) (h1 : n < 2147483648) (r : Int)
    (hr : 0 ≤ r) (hr4 : r < 4) : truncToInt ((4 * n + r : Int) / 4 : ℚ) = n := by
  have hq : Int.tdiv ((4 * n + r : Int) / 4 : ℚ).num ((4 * n + r : Int) / 4 : ℚ).den = n := by
    rw [Int.tdiv_eq_ediv (Rat.num_nonneg.mpr (by
      apply div_nonneg
      · exact_mod_cast (by omega : 0 ≤ 4 * n + r)
      · norm_num)) (Int.ofNat_nonneg _)]
    rw [← Rat.floor_def, Int.floor_eq_iff]
    have hrq : (0 : ℚ) ≤ (r : ℚ) := by exact_mod_cast hr
    have hrq4 : (r : ℚ) < 4 := by exact_mod_cast hr4
    push_cast
    constructor <;> linarith
  unfold truncToInt
  rw [hq, if_pos ⟨by omega, h1⟩]

theorem t_min_eq : t_min = 12 := by
  have h : float32 (t_min_f * 255.0) = ((4 * 12 + 3 : Int) / 4 : ℚ) := by
    rw [t_min_f_eq]
    have hp : (13421773 / 268435456 : ℚ) * 255.0 = 3422552115 / 268435456 := by norm_num
    rw [hp, float32_eval (3422552115 / 268435456 : ℚ) 3 13369344 (by norm_num) (by norm_num)
      (by norm_num) (by norm_num [abs_lt])]
    norm_num
  rw [t_min, h]
  exact truncToInt_quarters 12 (by norm_num) (by norm_num) 3 (by norm_num) (by norm_num)

theorem t_max_eq : t_max = 242 := by
  have h : float32 (t_max_f * 255.0) = ((4 * 242 + 1 : Int) / 4 : ℚ) := by
    rw [t_max_f_eq]
    have hp : (15938355 / 16777216 : ℚ) * 255.0 = 4064280525 / 16777216 := by norm_num
    rw [hp, float32_eval (4064280525 / 16777216 : ℚ) 7 15876096 (by norm_num) (by norm_num)
      (by norm_num) (by norm_num [abs_lt])]
    norm_num
  rw [t_max, h]
  exact truncToInt_quarters 242 (by norm_num) (by norm_num) 1 (by norm_num) (by norm_num)

theorem outlierValue_eq (v : Int) : outlierValue v = if v < 12 ∨ v > 242 then -1 else v := by
  rw [outlierValue, t_min_eq, t_max_eq]

theorem outlierPass_spec (buf : List Int) (total : Nat) :
    (SubSampleStack.outlierPass total buf).length = buf.length ∧
    ∀ idx : Nat, (SubSampleStack.outlierPass total buf)[idx]? =
      if idx < total then buf[idx]?.map outlierValue else buf[idx]? := by
  induction total with
  | zero =>
    refine ⟨rfl, ?_⟩
    intro idx
    rw [if_neg (Nat.not_lt_zero idx)]
    rfl
  | succ t ih =>
    obtain ⟨ihl, ihg⟩ := ih
    have hstep : SubSampleStack.outlierPass (t + 1) buf =
        if (SubSampleStack.outlierPass t buf).getD t 0 < t_min ∨
            (SubSampleStack.outlierPass t buf).getD t 0 > t_max
        then (SubSampleStack.outlierPass t buf).set t (-1)
        else SubSampleStack.outlierPass t buf := by
      simp only [SubSampleStack.outlierPass, List.range_succ, List.foldl_append, List.foldl_cons,
        List.foldl_nil]
    have hcur : (SubSampleStack.outlierPass t buf)[t]? = buf[t]? := by
      rw [ihg t, if_neg (Nat.lt_irrefl t)]
    have hD : (SubSampleStack.outlierPass t buf).getD t 0 = buf.getD t 0 := by
      rw [List.getD_eq_getElem?_getD, List.getD_eq_getElem?_getD, hcur]
    rw [hstep, hD]
    constructor
    · split
      · rw [List.length_set, ihl]
      · exact ihl
    · intro idx
      by_cases hit : idx = t
      · subst hit
        rw [if_pos (Nat.lt_succ_self idx)]
        by_cases hlen : idx < buf.length
        · have hb : buf[idx]? = some buf[idx] := List.getElem?_eq_getElem hlen
          have hv : buf.getD idx 0 = buf[idx] := by
            rw [List.getD_eq_getElem?_getD, hb]; rfl
          rw [hv, hb, Option.map_some']
          by_cases hc : buf[idx] < t_min ∨ buf[idx] > t_max
          · rw [if_pos hc, List.getElem?_set, if_pos rfl, if_pos (by rw [ihl]; exact hlen)]
            rw [outlierValue, if_pos hc]
          · rw [if_neg hc, hcur, hb, outlierValue, if_neg hc]
        · have hb : buf[idx]? = none := List.getElem?_eq_none (Nat.le_of_not_lt hlen)
          rw [hb, Option.map_none']
          split
          · rw [List.getElem?_set, if_pos rfl, if_neg (by rw [ihl]; exact hlen)]
          · rw [hcur, hb]
      · have hother : (if buf.getD t 0 < t_min ∨ buf.getD t 0 > t_max
            then (SubSampleStack.outlierPass t buf).set t (-1)
            else SubSampleStack.outlierPass t buf)[idx]? =
            (SubSampleStack.outlierPass t buf)[idx]? := by
          split
          · rw [List.getElem?_set, if_neg (fun h => hit h.symm)]
          · rfl
        rw [hother, ihg idx]
        by_cases hlt : idx < t
        · rw [if_pos hlt, if_pos (Nat.lt_succ_of_lt hlt)]
        · rw [if_neg hlt, if_neg (by omega)]

theorem outlierPass_eq_map (buf : List Int) :
    SubSampleStack.outlierPass buf.length buf = buf.map outlierValue := by
  apply List.ext_getElem?
  intro idx
  rw [(outlierPass_spec buf buf.length).2 idx, List.getElem?_map]
  by_cases h : idx < buf.length
  · rw [if_pos h]
  · rw [if_neg h, List.getElem?_eq_none (Nat.le_of_not_lt h)]
    rfl

/-! ## `Compute` in closed form -/

theorem Compute_invalid (env : Collaborators) (self : SubSampleStack) (stack : List Image)
    (nSamples : Int) (bRemoveOutliers bSpatial : Bool) (sub_type : SAMPLER_TYPE)
    (h : ¬ (1 < stack.length ∧ 1 < nSamples)) :
    self.Compute env stack nSamples bRemoveOutliers bSpatial sub_type =
      { bCheck := false, exposures := 0, channels := 0, nSamples := 0, total := 0,
        samples := none } := by
  have hb : (decide (stack.length > 1) && decide (nSamples > 1)) = false := by
    rw [Bool.and_eq_false_iff, decide_eq_false_iff_not, decide_eq_false_iff_not]
    by_cases h1 : stack.length > 1
    · exact Or.inr (fun h2 => h ⟨h1, h2⟩)
    · exact Or.inl h1
  simp only [SubSampleStack.Compute, hb, SubSampleStack.Destroy]
  rfl

theorem Compute_valid (env : Collaborators) (stack : List Image) (nSamples : Int)
    (bSpatial : Bool) (sub_type : SAMPLER_TYPE) (h1 : 1 < stack.length) (h2 : 1 < nSamples) :
    ∃ raw : List Int,
      raw.length = actualSamples env stack nSamples bSpatial sub_type
        * (stack.getD 0 default).channels * stack.length ∧
      (∀ k i j : Nat, k < (stack.getD 0 default).channels →
        i < actualSamples env stack nSamples bSpatial sub_type → j < stack.length →
        raw[k * (actualSamples env stack nSamples bSpatial sub_type * stack.length)
            + i * stack.length + j]? =
          some (producedSample env stack nSamples bSpatial sub_type k i j)) ∧
      ∀ (self : SubSampleStack) (bRemoveOutliers : Bool),
        self.Compute env stack nSamples bRemoveOutliers bSpatial sub_type =
          { bCheck := true, exposures := stack.length,
            channels := (stack.getD 0 default).channels,
            nSamples := actualSamples env stack nSamples bSpatial sub_type,
            total := if bRemoveOutliers then actualSamples env stack nSamples bSpatial sub_type
              * (stack.getD 0 default).channels * stack.length else 0,
            samples := some (if bRemoveOutliers then raw.map outlierValue else raw) } := by
  have hb : (decide (stack.length > 1) && decide (nSamples > 1)) = true := by
    rw [Bool.and_eq_true, decide_eq_true_iff, decide_eq_true_iff]
    exact ⟨h1, h2⟩
  cases bSpatial with
  | false =>
    obtain ⟨buf, hs, hl, hg⟩ := Grossberg_samples env stack
      { bCheck := true, exposures := stack.length, channels := (stack.getD 0 default).channels,
        nSamples := nSamples.toNat, total := 0, samples := none }
    simp only at hl hg
    refine ⟨buf, hl, ?_, ?_⟩
    · intro k i j hk hi hj
      exact hg k i j hk hi hj
    · intro self rm
      simp only [SubSampleStack.Compute, hb, SubSampleStack.Destroy]
      cases rm with
      | false =>
        simp only [Bool.not_true, Bool.false_eq_true, if_false]
        rw [SubSampleStack.Grossberg] at hs ⊢
        simp only at hs ⊢
        rw [Option.some.inj hs]
        rfl
      | true =>
        simp only [Bool.not_true, Bool.false_eq_true, if_false, if_true]
        rw [SubSampleStack.Grossberg] at hs ⊢
        simp only at hs ⊢
        rw [Option.some.inj hs, Option.map_some', ← hl, outlierPass_eq_map, hl]
        rfl
  | true =>
    obtain ⟨buf, hs, hl, hg⟩ := Spatial_samples env stack sub_type
      { bCheck := true, exposures := stack.length, channels := (stack.getD 0 default).channels,
        nSamples := nSamples.toNat, total := 0, samples := none } rfl
      (actualSamples env stack nSamples true sub_type) rfl
    simp only at hl hg
    refine ⟨buf, hl, ?_, ?_⟩
    · intro k i j hk hi hj
      exact hg k i j hk hi hj
    · intro self rm
      simp only [SubSampleStack.Compute, hb, SubSampleStack.Destroy]
      cases rm with
      | false =>
        simp only [Bool.not_true, Bool.false_eq_true, if_false, if_true]
        rw [SubSampleStack.Spatial] at hs ⊢
        simp only at hs ⊢
        rw [Option.some.inj hs]
        rfl
      | true =>
        simp only [Bool.not_true, Bool.false_eq_true, if_false, if_true]
        rw [SubSampleStack.Spatial] at hs ⊢
        simp only at hs ⊢
        rw [Option.some.inj hs, Option.map_some']
        have e : (env.newRandomSampler sub_type
            ((stack.getD 0 default).width, (stack.getD 0 default).height)
            nSamples.toNat 1 0).getSamplesPerLevel 0 * (stack.getD 0 default).channels
            * stack.length = buf.length := hl.symm
        rw [e, outlierPass_eq_map, ← e]
        rfl

/-! ## The binary search -/

theorem upper_bound_loop_local (a : Nat → ℚ) (val : ℚ) :
    ∀ (fuel first len : Nat), len ≤ fuel →
      first ≤ upper_bound_loop a val fuel first len ∧
      upper_bound_loop a val fuel first len ≤ first + len ∧
      (upper_bound_loop a val fuel first len < first + len →
        val < a (upper_bound_loop a val fuel first len)) ∧
      (first < upper_bound_loop a val fuel first len →
        ¬ val < a (upper_bound_loop a val fuel first len - 1)) := by
  intro fuel
  induction fuel with
  | zero =>
    intro first len hlen
    have h0 : len = 0 := Nat.le_zero.mp hlen
    subst h0
    refine ⟨Nat.le_refl _, Nat.le_refl _, ?_, ?_⟩
    · intro h; exact absurd h (Nat.lt_irrefl _)
    · intro h; exact absurd h (Nat.lt_irrefl _)
  | succ fuel ih =>
    intro first len hlen
    by_cases hpos : 0 < len
    · by_cases hcmp : val < a (first + len / 2)
      · have e : upper_bound_loop a val (fuel + 1) first len
            = upper_bound_loop a val fuel first (len / 2) := by
          simp only [upper_bound_loop, hpos, hcmp, if_true]
        rw [e]
        obtain ⟨r1, r2, r3, r4⟩ := ih first (len / 2) (by omega)
        refine ⟨r1, by omega, ?_, r4⟩
        intro _
        by_cases hlt : upper_bound_loop a val fuel first (len / 2) < first + len / 2
        · exact r3 hlt
        · have heq : upper_bound_loop a val fuel first (len / 2) = first + len / 2 := by omega
          rw [heq]
          exact hcmp
      · have e : upper_bound_loop a val (fuel + 1) first len
            = upper_bound_loop a val fuel (first + len / 2 + 1) (len - len / 2 - 1) := by
          simp only [upper_bound_loop, hpos, hcmp, if_true, if_false]
        rw [e]
        obtain ⟨r1, r2, r3, r4⟩ := ih (first + len / 2 + 1) (len - len / 2 - 1) (by omega)
        refine ⟨by omega, by omega, ?_, ?_⟩
        · intro hlt
          exact r3 (by omega)
        · intro _
          by_cases hlt : first + len / 2 + 1
              < upper_bound_loop a val fuel (first + len / 2 + 1) (len - len / 2 - 1)
          · exact r4 hlt
          · have heq : upper_bound_loop a val fuel (first + len / 2 + 1) (len - len / 2 - 1)
                = first + len / 2 + 1 := by omega
            rw [heq]
            exact hcmp
    · have h0 : len = 0 := by omega
      subst h0
      have e : upper_bound_loop a val (fuel + 1) first 0 = first := by
        simp only [upper_bound_loop, Nat.lt_irrefl, if_false]
      rw [e]
      refine ⟨Nat.le_refl _, Nat.le_refl _, ?_, ?_⟩
      · intro h; exact absurd h (Nat.lt_irrefl _)
      · intro h; exact absurd h (Nat.lt_irrefl _)

theorem upper_bound_local (a : Nat → ℚ) (last : Nat) (val : ℚ) :
    upper_bound a 0 last val ≤ last ∧
    (upper_bound a 0 last val < last → val < a (upper_bound a 0 last val)) ∧
    (0 < upper_bound a 0 last val → ¬ val < a (upper_bound a 0 last val - 1)) := by
  obtain ⟨_, r2, r3, r4⟩ := upper_bound_loop_local a val (last - 0) 0 (last - 0) (Nat.le_refl _)
  simp only [Nat.sub_zero, Nat.zero_add] at r2 r3 r4
  exact ⟨r2, r3, r4⟩

theorem upper_bound_least (a : Nat → ℚ) (last : Nat) (val : ℚ)
    (hmono : ∀ x y : Nat, x ≤ y → y < last → a x ≤ a y) :
    upper_bound a 0 last val ≤ last ∧
    (∀ x : Nat, x < upper_bound a 0 last val → ¬ val < a x) ∧
    (∀ x : Nat, upper_bound a 0 last val ≤ x → x < last → val < a x) := by
  obtain ⟨r1, r2, r3⟩ := upper_bound_local a last val
  refine ⟨r1, ?_, ?_⟩
  · intro x hx hlt
    have hpos : 0 < upper_bound a 0 last val := by omega
    have hle : a x ≤ a (upper_bound a 0 last val - 1) := hmono x _ (by omega) (by omega)
    exact r3 hpos (lt_of_lt_of_le hlt hle)
  · intro x hx hxl
    exact lt_of_lt_of_le (r2 (by omega)) (hmono _ x hx hxl)

theorem CLAMPi_range (x : Int) : 0 ≤ CLAMPi x 0 255 ∧ CLAMPi x 0 255 ≤ 255 := by
  unfold CLAMPi
  split
  · omega
  · split <;> omega

theorem quantile_eq (n : Int) (i : Nat) (hn : 1 < n) :
    quantile n.toNat i = float32 (float32 (i : ℚ) / float32 ((n : ℚ) - 1)) := by
  unfold quantile
  rw [Int.toNat_of_nonneg (by omega)]
  push_cast
  rfl

theorem quantileSample_first (bin_c : Nat → ℚ) (n i : Nat)
    (hmono : ∀ x y : Nat, x ≤ y → y < 256 → bin_c x ≤ bin_c y) :
    ((∃ b : Nat, b < 256 ∧ quantile n i < bin_c b) →
      ∃ b : Nat, quantileSample bin_c n i = (b : Int) ∧ b < 256 ∧ quantile n i < bin_c b ∧
        ∀ b2 : Nat, b2 < b → ¬ quantile n i < bin_c b2) ∧
    ((∀ b : Nat, b < 256 → ¬ quantile n i < bin_c b) → quantileSample bin_c n i = 255) := by
  obtain ⟨r1, r2, r3⟩ := upper_bound_least bin_c 256 (quantile n i) hmono
  constructor
  · rintro ⟨b, hb, hlt⟩
    have hr : upper_bound bin_c 0 256 (quantile n i) ≤ b := by
      by_contra hcon
      exact r2 b (by omega) hlt
    refine ⟨upper_bound bin_c 0 256 (quantile n i), ?_, by omega, r3 _ (Nat.le_refl _) (by omega),
      r2⟩
    unfold quantileSample CLAMPi
    rw [if_neg (by omega), if_neg (by omega)]
  · intro hnone
    have hr : upper_bound bin_c 0 256 (quantile n i) = 256 := by
      by_contra hcon
      exact hnone _ (by omega) (r3 _ (Nat.le_refl _) (by omega))
    unfold quantileSample CLAMPi
    rw [hr]
    rfl

/-! ## The cumulative histogram of the specification -/

theorem sum_take_succ (l : List Nat) (t : Nat) :
    (l.take (t + 1)).sum = (l.take t).sum + l.getD t 0 := by
  induction l generalizing t with
  | nil => simp
  | cons x xs ih =>
    cases t with
    | zero => simp
    | succ t =>
      simp only [List.take_succ_cons, List.sum_cons, List.getD_cons_succ]
      rw [ih t]
      omega

theorem sum_take_mono (l : List Nat) (x y : Nat) (h : x ≤ y) :
    (l.take x).sum ≤ (l.take y).sum := by
  induction y with
  | zero =>
    have hx : x = 0 := Nat.le_zero.mp h
    subst hx
    exact Nat.le_refl _
  | succ y ih =>
    by_cases hxy : x ≤ y
    · rw [sum_take_succ]
      exact Nat.le_trans (ih hxy) (Nat.le_add_right _ _)
    · have hx : x = y + 1 := by omega
      subst hx
      exact Nat.le_refl _

theorem sum_take_le_sum (l : List Nat) (x : Nat) : (l.take x).sum ≤ l.sum := by
  have h := sum_take_mono l x (max x l.length) (Nat.le_max_left _ _)
  rw [List.take_of_length_le (Nat.le_max_right x l.length)] at h
  exact h

theorem sum_take_pos_iff (l : List Nat) (t : Nat) :
    0 < (l.take (t + 1)).sum ↔ ∃ a : Nat, a ≤ t ∧ 0 < l.getD a 0 := by
  induction t with
  | zero =>
    rw [sum_take_succ]
    simp
  | succ t ih =>
    rw [sum_take_succ]
    constructor
    · intro h
      by_cases hp : 0 < (l.take (t + 1)).sum
      · obtain ⟨a, ha, hpos⟩ := ih.mp hp
        exact ⟨a, by omega, hpos⟩
      · exact ⟨t + 1, Nat.le_refl _, by omega⟩
    · rintro ⟨a, ha, hpos⟩
      by_cases hat : a ≤ t
      · have := ih.mpr ⟨a, hat, hpos⟩
        omega
      · have hx : a = t + 1 := by omega
        subst hx
        omega

theorem cumulativef_mono (bin : List Nat) (x y : Nat) (h : x ≤ y) :
    Histogram.cumulativef bin true x ≤ Histogram.cumulativef bin true y := by
  simp only [Histogram.cumulativef, if_true]
  apply div_le_div_of_nonneg_right
  · exact_mod_cast sum_take_mono bin (x + 1) (y + 1) (by omega)
  · exact Nat.cast_nonneg _

theorem cumulativef_le_one (bin : List Nat) (b : Nat) :
    Histogram.cumulativef bin true b ≤ 1 := by
  simp only [Histogram.cumulativef, if_true]
  apply div_le_one_of_le₀
  · exact_mod_cast sum_take_le_sum bin (b + 1)
  · exact Nat.cast_nonneg _

theorem cumulativef_pos_iff (bin : List Nat) (b : Nat) :
    0 < Histogram.cumulativef bin true b ↔ ∃ a : Nat, a ≤ b ∧ 0 < bin.getD a 0 := by
  rw [← sum_take_pos_iff]
  simp only [Histogram.cumulativef, if_true]
  constructor
  · intro h
    by_contra hcon
    have h0 : (bin.take (b + 1)).sum = 0 := by omega
    rw [h0] at h
    simp at h
  · intro h
    have ht : 0 < bin.sum := Nat.lt_of_lt_of_le h (sum_take_le_sum bin (b + 1))
    apply div_pos
    · exact_mod_cast h
    · exact_mod_cast ht

/-! ## Rounding -/

theorem lround_natCast (n : Nat) : lround (n : ℚ) = (n : Int) := by
  unfold lround
  rw [if_pos (Nat.cast_nonneg n), Int.floor_eq_iff]
  constructor
  · push_cast
    linarith
  · push_cast
    linarith

theorem lround_near (x : ℚ) : |((lround x : Int) : ℚ) - x| ≤ 1 / 2 := by
  unfold lround
  split
  · have h1 := Int.floor_le (x + 1 / 2)
    have h2 := Int.lt_floor_add_one (x + 1 / 2)
    rw [abs_le]
    constructor <;> linarith
  · have h1 := Int.floor_le (-x + 1 / 2)
    have h2 := Int.lt_floor_add_one (-x + 1 / 2)
    rw [abs_le]
    push_cast
    constructor <;> linarith

theorem quantileSample_none (bin_c : Nat → ℚ) (n i : Nat)
    (h : ∀ b : Nat, b < 256 → ¬ quantile n i < bin_c b) : quantileSample bin_c n i = 255 := by
  obtain ⟨r1, r2, _⟩ := upper_bound_local bin_c 256 (quantile n i)
  have hr : upper_bound bin_c 0 256 (quantile n i) = 256 := by
    by_contra hcon
    exact h _ (by omega) (r2 (by omega))
  unfold quantileSample CLAMPi
  rw [hr]
  rfl

theorem quantile_zero (n : Nat) : quantile n 0 = 0 := by
  unfold quantile
  rw [Nat.cast_zero, float32_zero, zero_div, float32_zero]

theorem divisor_pos (n : Nat) (hn : 2 ≤ n) :
    (1 : ℚ) ≤ float32 (((n : Int) - 1 : Int) : ℚ) := by
  have h1 : (1 : ℚ) ≤ (((n : Int) - 1 : Int) : ℚ) := by
    have : (1 : Int) ≤ (n : Int) - 1 := by omega
    exact_mod_cast this
  have := float32_mono 1 _ (by norm_num) h1
  rw [float32_one] at this
  exact this

theorem quantile_last (n : Nat) (hn : 2 ≤ n) : quantile n (n - 1) = 1 := by
  unfold quantile
  have h : (((n - 1 : Nat) : Nat) : ℚ) = (((n : Int) - 1 : Int) : ℚ) := by
    have : ((n - 1 : Nat) : Int) = (n : Int) - 1 := by omega
    rw [← this]
    rfl
  rw [h, div_self (ne_of_gt (lt_of_lt_of_le one_pos (divisor_pos n hn)))]
  exact float32_one

theorem quantileSample_min_populated (bin : List Nat) (n b : Nat) (hb : b < 256)
    (hpop : 0 < bin.getD b 0) (hmin : ∀ a : Nat, a < b → bin.getD a 0 = 0) :
    quantileSample (Histogram.cumulativef bin true) n 0 = (b : Int) := by
  obtain ⟨f1, _⟩ := quantileSample_first (Histogram.cumulativef bin true) n 0
    (fun x y h _ => cumulativef_mono bin x y h)
  rw [quantile_zero] at f1
  obtain ⟨b2, hb2, _, hpos, hleast⟩ :=
    f1 ⟨b, hb, (cumulativef_pos_iff bin b).mpr ⟨b, Nat.le_refl _, hpop⟩⟩
  rw [hb2]
  obtain ⟨a, ha, hapos⟩ := (cumulativef_pos_iff bin b2).mp hpos
  have h1 : b ≤ a := by
    by_contra hcon
    have := hmin a (by omega)
    omega
  have h2 : ¬ b < b2 := by
    intro hlt
    exact hleast b hlt ((cumulativef_pos_iff bin b).mpr ⟨b, Nat.le_refl _, hpop⟩)
  have : b2 = b := by omega
  rw [this]

theorem quantileSample_last_spec (bin : List Nat) (n : Nat) (hn : 2 ≤ n) :
    quantileSample (Histogram.cumulativef bin true) n (n - 1) = 255 := by
  apply quantileSample_none
  intro b _
  rw [quantile_last n hn]
  exact not_lt.mpr (cumulativef_le_one bin b)

/-! ## Constant exposures -/

theorem quantize_zero : quantize 0 = 0 := by
  have h : (0 : ℚ) * 255 = ((0 : Nat) : ℚ) := by norm_num
  unfold quantize
  rw [h, lround_natCast]
  rfl

theorem quantize_one : quantize 1 = 255 := by
  have h : (1 : ℚ) * 255 = ((255 : Nat) : ℚ) := by norm_num
  unfold quantize
  rw [h, lround_natCast]
  rfl

theorem quantize_half : quantize (1 / 2) = 128 := by
  have h : lround ((1 / 2 : ℚ) * 255) = 128 := by
    unfold lround
    rw [if_pos (by norm_num), Int.floor_eq_iff]
    constructor <;> norm_num
  unfold quantize
  rw [h]
  rfl

theorem Calculate_constImage (q : ℚ → Nat) (v : ℚ) (b : Nat) :
    (Histogram.Calculate q (constImage v) 256 0).getD b 0
      = if b < 256 ∧ q v = b then 4 else 0 := by
  unfold Histogram.Calculate constImage
  rw [List.getD_eq_getElem?_getD, List.getElem?_map]
  by_cases hb : b < 256
  · rw [List.getElem?_range hb]
    by_cases hq : q v = b
    · simp [hb, hq]
    · simp [hb, hq]
  · rw [List.getElem?_eq_none (by rw [List.length_range]; omega)]
    simp [hb]

theorem quantileSample_constImage (q : ℚ → Nat) (v : ℚ) (n : Nat) (h : q v < 256) :
    quantileSample (Histogram.cumulativef (Histogram.Calculate q (constImage v) 256 0) true) n 0
      = (q v : Int) := by
  apply quantileSample_min_populated _ n (q v) h
  · rw [Calculate_constImage, if_pos ⟨h, rfl⟩]
    decide
  · intro a ha
    rw [Calculate_constImage, if_neg]
    omega

theorem threeExposures_buffer (q : ℚ → Nat)
    (smp : SAMPLER_TYPE → Nat × Nat → Nat → Nat → Nat → RandomSampler) (self : SubSampleStack)
    (sub_type : SAMPLER_TYPE) (h0 : q 0 = 0) (h1 : q 1 = 255) (hh : q (1 / 2) < 256) :
    (self.Compute (specCollaborators (Histogram.Calculate q) smp) threeExposures 2 false false
      sub_type).get = some [0, (q (1 / 2) : Int), 255, 255, 255, 255] := by
  obtain ⟨raw, hlen, hget, hc⟩ := Compute_valid (specCollaborators (Histogram.Calculate q) smp)
    threeExposures 2 false sub_type (by decide) (by decide)
  rw [hc self false]
  have hlen6 : raw.length = 6 := hlen
  have hent : ∀ i j : Nat, i < 2 → j < 3 → raw[i * 3 + j]? = some (quantileSample
      (Histogram.cumulativef (Histogram.Calculate q (threeExposures.getD j default) 256 0) true)
      2 i) := by
    intro i j hi hj
    have h := hget 0 i j Nat.zero_lt_one hi hj
    rw [Nat.zero_mul, Nat.zero_add] at h
    exact h
  have e0 : raw[0]? = some (0 : Int) := by
    have h := hent 0 0 (by decide) (by decide)
    have hq := quantileSample_constImage q 0 2 (by omega)
    rw [h0] at hq
    exact h.trans (congrArg some hq)
  have e1 : raw[1]? = some (q (1 / 2) : Int) :=
    (hent 0 1 (by decide) (by decide)).trans
      (congrArg some (quantileSample_constImage q (1 / 2) 2 hh))
  have e2 : raw[2]? = some (255 : Int) := by
    have h := hent 0 2 (by decide) (by decide)
    have hq := quantileSample_constImage q 1 2 (by omega)
    rw [h1] at hq
    exact h.trans (congrArg some hq)
  have e3 : raw[3]? = some (255 : Int) :=
    (hent 1 0 (by decide) (by decide)).trans
      (congrArg some (quantileSample_last_spec _ 2 (by decide)))
  have e4 : raw[4]? = some (255 : Int) :=
    (hent 1 1 (by decide) (by decide)).trans
      (congrArg some (quantileSample_last_spec _ 2 (by decide)))
  have e5 : raw[5]? = some (255 : Int) :=
    (hent 1 2 (by decide) (by decide)).trans
      (congrArg some (quantileSample_last_spec _ 2 (by decide)))
  show some raw = _
  congr 1
  apply List.ext_getElem?
  intro idx
  by_cases hidx : idx < 6
  · interval_cases idx
    · exact e0
    · exact e1
    · exact e2
    · exact e3
    · exact e4
    · exact e5
  · rw [List.getElem?_eq_none (by omega), List.getElem?_eq_none (by simp; omega)]

/-! ## The histogram with one count in every bin -/

theorem cumulativef_uniform (b : Nat) (hb : b < 256) :
    Histogram.cumulativef (List.replicate 256 1) true b = ((b : ℚ) + 1) / 256 := by
  simp only [Histogram.cumulativef, if_true, List.take_replicate, List.sum_replicate,
    smul_eq_mul, Nat.mul_one]
  rw [Nat.min_eq_left (by omega)]
  push_cast
  rfl

theorem quantile_range (n i : Nat) (hn : 2 ≤ n) (hi : i < n) :
    0 ≤ quantile n i ∧ quantile n i ≤ 1 := by
  unfold quantile
  have hd := divisor_pos n hn
  have hd0 : (0 : ℚ) < float32 (((n : Int) - 1 : Int) : ℚ) := lt_of_lt_of_le one_pos hd
  have hi0 : (0 : ℚ) ≤ float32 (i : ℚ) := float32_nonneg _ (Nat.cast_nonneg i)
  have hle : float32 (i : ℚ) ≤ float32 (((n : Int) - 1 : Int) : ℚ) := by
    apply float32_mono _ _ (Nat.cast_nonneg i)
    have : (i : Int) ≤ (n : Int) - 1 := by omega
    exact_mod_cast this
  constructor
  · exact float32_nonneg _ (div_nonneg hi0 (le_of_lt hd0))
  · have h1 : float32 (i : ℚ) / float32 (((n : Int) - 1 : Int) : ℚ) ≤ 1 :=
      (div_le_one hd0).mpr hle
    have := float32_mono _ 1 (div_nonneg hi0 (le_of_lt hd0)) h1
    rw [float32_one] at this
    exact this

theorem float32_bracket (x : ℚ) (hx : 0 < x) :
    x * (16777215 / 16777216) ≤ float32 x ∧ float32 x ≤ x * (16777217 / 16777216) := by
  obtain ⟨h1, h2⟩ := abs_le.mp (float32_rel_error x hx)
  constructor <;> linarith

theorem quantile_near (n i : Nat) (hn : 2 ≤ n) (hi : i < n) :
    |quantile n i - (i : ℚ) / (((n : Int) - 1 : Int) : ℚ)| ≤ 1 / 2097152 := by
  rcases Nat.eq_zero_or_pos i with h0 | hpos
  · rw [h0, quantile_zero]
    simp
  · have hI : (0 : ℚ) < (i : ℚ) := by exact_mod_cast hpos
    have hN : (0 : ℚ) < (((n : Int) - 1 : Int) : ℚ) := by
      have : (0 : Int) < (n : Int) - 1 := by omega
      exact_mod_cast this
    have hIN : (i : ℚ) ≤ (((n : Int) - 1 : Int) : ℚ) := by
      have : (i : Int) ≤ (n : Int) - 1 := by omega
      exact_mod_cast this
    obtain ⟨a1, a2⟩ := float32_bracket _ hI
    obtain ⟨b1, b2⟩ := float32_bracket _ hN
    have ha : 0 < float32 (i : ℚ) := float32_pos _ hI
    have hb : 0 < float32 (((n : Int) - 1 : Int) : ℚ) := float32_pos _ hN
    have hq : 0 < float32 (i : ℚ) / float32 (((n : Int) - 1 : Int) : ℚ) := div_pos ha hb
    obtain ⟨c1, c2⟩ := float32_bracket _ hq
    have hqb : float32 (i : ℚ) / float32 (((n : Int) - 1 : Int) : ℚ)
        * float32 (((n : Int) - 1 : Int) : ℚ) = float32 (i : ℚ) :=
      div_mul_cancel₀ _ (ne_of_gt hb)
    have t1 := mul_le_mul_of_nonneg_left b1 (le_of_lt hq)
    have t2 := mul_le_mul_of_nonneg_left b2 (le_of_lt hq)
    rw [hqb] at t1 t2
    have u1 := mul_le_mul_of_nonneg_right c1 (le_of_lt hN)
    have u2 := mul_le_mul_of_nonneg_right c2 (le_of_lt hN)
    have hx : (i : ℚ) / (((n : Int) - 1 : Int) : ℚ) * (((n : Int) - 1 : Int) : ℚ) = (i : ℚ) :=
      div_mul_cancel₀ _ (ne_of_gt hN)
    unfold quantile
    rw [abs_le]
    constructor
    · apply le_of_mul_le_mul_right _ hN
      rw [sub_mul, hx]
      linarith
    · apply le_of_mul_le_mul_right _ hN
      rw [sub_mul, hx]
      linarith

theorem identity_sample_near (bin_c : Nat → ℚ) (n i : Nat) (x : ℚ)
    (hu0 : 0 ≤ quantile n i) (hu1 : quantile n i ≤ 1) (hx1 : x ≤ 1)
    (hnear : |quantile n i - x| ≤ 1 / 2097152)
    (hid : ∀ b : Nat, b < 256 → bin_c b = ((b : ℚ) + 1) / 256)
    (r : Int) (hr : |(r : ℚ) - x * 255| ≤ 1 / 2) :
    |quantileSample bin_c n i - r| ≤ 1 := by
  obtain ⟨hn1, hn2⟩ := abs_le.mp hnear
  obtain ⟨hr1, hr2⟩ := abs_le.mp hr
  have hmono : ∀ x y : Nat, x ≤ y → y < 256 → bin_c x ≤ bin_c y := by
    intro x y hxy hy
    rw [hid x (by omega), hid y hy]
    have : (x : ℚ) ≤ (y : ℚ) := by exact_mod_cast hxy
    linarith
  obtain ⟨f1, f2⟩ := quantileSample_first bin_c n i hmono
  by_cases hex : ∃ b : Nat, b < 256 ∧ quantile n i < bin_c b
  · obtain ⟨b, hb, hb256, hlt, hleast⟩ := f1 hex
    rw [hb]
    rw [hid b hb256] at hlt
    have hlow : (b : ℚ) ≤ 256 * quantile n i := by
      cases b with
      | zero =>
        push_cast
        linarith
      | succ c =>
        have h := hleast c (Nat.lt_succ_self c)
        rw [hid c (by omega)] at h
        push_cast
        linarith [not_lt.mp h]
    rw [abs_le]
    constructor
    · by_contra hcon
      have h2 : (r : Int) - (b : Int) ≥ 2 := by omega
      have h3 : ((r : Int) : ℚ) - ((b : Nat) : ℚ) ≥ 2 := by exact_mod_cast h2
      linarith
    · by_contra hcon
      have h2 : ((b : Nat) : Int) - r ≥ 2 := by omega
      have h3 : ((b : Nat) : ℚ) - ((r : Int) : ℚ) ≥ 2 := by exact_mod_cast h2
      linarith
  · have hnone : ∀ b : Nat, b < 256 → ¬ quantile n i < bin_c b := by
      intro b hb hlt
      exact hex ⟨b, hb, hlt⟩
    rw [f2 hnone]
    have h255 := hnone 255 (by decide)
    rw [hid 255 (by decide)] at h255
    have hx : 1 ≤ quantile n i := by
      have := not_lt.mp h255
      norm_num at this
      exact this
    rw [abs_le]
    constructor
    · by_contra hcon
      have h2 : (r : Int) - 255 ≥ 2 := by omega
      have h3 : ((r : Int) : ℚ) - 255 ≥ 2 := by exact_mod_cast h2
      linarith
    · by_contra hcon
      have h2 : (255 : Int) - r ≥ 2 := by omega
      have h3 : (255 : ℚ) - ((r : Int) : ℚ) ≥ 2 := by exact_mod_cast h2
      linarith

/-! ## The claims -/

/-- C4: insufficient data. From every prior engine state, also one that holds a buffer, a call
of `Compute` with fewer than two exposures or fewer than two requested samples returns and
leaves the engine in the empty state: `getNSamples()` is 0 and `get()` is null (and the channel
and exposure counts are 0). -/
theorem C4_insufficient_data (env : Collaborators) (self : SubSampleStack) (stack : List Image)
    (n : Int) (bRemoveOutliers bSpatial : Bool) (sub_type : SAMPLER_TYPE)
    (h : stack.length < 2 ∨ n < 2) :
    (self.Compute env stack n bRemoveOutliers bSpatial sub_type).getNSamples = 0 ∧
    (self.Compute env stack n bRemoveOutliers bSpatial sub_type).get = none ∧
    (self.Compute env stack n bRemoveOutliers bSpatial sub_type).channels = 0 ∧
    (self.Compute env stack n bRemoveOutliers bSpatial sub_type).exposures = 0 := by
  rw [Compute_invalid env self stack n bRemoveOutliers bSpatial sub_type (by omega)]
  exact ⟨rfl, rfl, rfl, rfl⟩

/-- Witness of C4: a stack of one exposure, on an engine that already holds a buffer. -/
theorem C4_insufficient_data_witness :
    usedEngine.get = some [7, 7, 7, 7] ∧
    (usedEngine.Compute sampleEnv [constImage 0] 2 false false 0).getNSamples = 0 ∧
    (usedEngine.Compute sampleEnv [constImage 0] 2 false false 0).get = none ∧
    (usedEngine.Compute sampleEnv [constImage 0] 2 false false 0).channels = 0 ∧
    (usedEngine.Compute sampleEnv [constImage 0] 2 false false 0).exposures = 0 :=
  ⟨rfl, C4_insufficient_data sampleEnv usedEngine [constImage 0] 2 false false 0
    (Or.inl (by decide))⟩

/-- C7 as stated fails: on the three constant exposures (all 0, all 1/2, all 1), two requested
samples, quantile strategy and no outlier removal, the buffer is `[0, 128, 255, 255, 255, 255]`
and not `[0, 0, 0, 255, 255, 255]`: the slot of quantile 0 holds the populated bin of each
exposure, which is 128 for the pixels at 1/2 and 255 for the pixels at 1. -/
theorem C7_counterexample :
    ((SubSampleStack.new false).Compute sampleEnv threeExposures 2 false false 0).get
      = some [0, 128, 255, 255, 255, 255] ∧
    ((SubSampleStack.new false).Compute sampleEnv threeExposures 2 false false 0).get
      ≠ some [0, 0, 0, 255, 255, 255] := by
  have h := threeExposures_buffer quantize (fixedSampler 3) (SubSampleStack.new false) 0
    quantize_zero quantize_one (by rw [quantize_half]; decide)
  rw [quantize_half] at h
  have h2 : ((SubSampleStack.new false).Compute sampleEnv threeExposures 2 false false 0).get
      = some [0, 128, 255, 255, 255, 255] := h
  refine ⟨h2, ?_⟩
  rw [h2]
  decide

/-- C7 as amended: for the stack of three single-channel 2 by 2 exposures whose pixels are all
0, all 1/2 and all 1, `Compute` with 2 requested samples, quantile strategy and no outlier
removal yields a buffer of length `1 * 2 * 3 = 6` whose entries are
`[0, b, 255, 255, 255, 255]`, where `b` is the bin to which the histogram assigns the value
1/2, for every histogram binning `q` that sends 0 to bin 0 and 1 to bin 255. -/
theorem C7_end_to_end (q : ℚ → Nat)
    (smp : SAMPLER_TYPE → Nat × Nat → Nat → Nat → Nat → RandomSampler) (self : SubSampleStack)
    (sub_type : SAMPLER_TYPE) (h0 : q 0 = 0) (h1 : q 1 = 255) (hh : q (1 / 2) < 256) :
    ∃ buf : List Int,
      (self.Compute (specCollaborators (Histogram.Calculate q) smp) threeExposures 2 false false
        sub_type).get = some buf ∧
      buf.length = 1 * 2 * 3 ∧
      buf = [0, (q (1 / 2) : Int), 255, 255, 255, 255] :=
  ⟨_, threeExposures_buffer q smp self sub_type h0 h1 hh, rfl, rfl⟩

/-- Witness of the amended C7 with the round-to-nearest quantizer, whose bin for 1/2 is 128. -/
theorem C7_end_to_end_witness :
    quantize (1 / 2) = 128 ∧
    ∃ buf : List Int,
      (usedEngine.Compute (specCollaborators (Histogram.Calculate quantize) (fixedSampler 3))
        threeExposures 2 false false 0).get = some buf ∧
      buf.length = 1 * 2 * 3 ∧
      buf = [0, (quantize (1 / 2) : Int), 255, 255, 255, 255] :=
  ⟨quantize_half, C7_end_to_end quantize (fixedSampler 3) usedEngine 0 quantize_zero quantize_one
    (by rw [quantize_half]; decide)⟩

/-- C8: identity histogram. In the quantile strategy, for every `n ≥ 2` and every slot `i`, if
the normalised cumulative array of an exposure is `cdf[b] = (b + 1) / 256` (its histogram has
exactly one count in every bin), then the sample produced for that exposure at slot `i`
differs by at most 1 from `round(i / (n - 1) * 255)`: from `lround` of it, and from every
integer within 1/2 of `i / (n - 1) * 255`. -/
theorem C8_identity_histogram (env : Collaborators) (self : SubSampleStack)
    (stack : List Image) (n : Int) (sub_type : SAMPLER_TYPE)
    (hE : 1 < stack.length) (hn : 1 < n) (k i j : Nat)
    (hk : k < (stack.getD 0 default).channels) (hi : i < n.toNat) (hj : j < stack.length)
    (hid : ∀ b : Nat, b < 256 →
      (env.histogram (stack.getD j default) 256 k).getCumulativef b = ((b : ℚ) + 1) / 256) :
    ∃ (buf : List Int) (v : Int),
      (self.Compute env stack n false false sub_type).get = some buf ∧
      buf[k * (n.toNat * stack.length) + i * stack.length + j]? = some v ∧
      |v - lround ((i : ℚ) / ((n : ℚ) - 1) * 255)| ≤ 1 ∧
      ∀ r : Int, |(r : ℚ) - (i : ℚ) / ((n : ℚ) - 1) * 255| ≤ 1 / 2 → |v - r| ≤ 1 := by
  obtain ⟨raw, _, hget, hc⟩ := Compute_valid env stack n false sub_type hE hn
  rw [hc self false]
  have hnear : ∀ r : Int, |(r : ℚ) - (i : ℚ) / ((n : ℚ) - 1) * 255| ≤ 1 / 2 →
      |quantileSample (env.histogram (stack.getD j default) 256 k).getCumulativef n.toNat i - r|
        ≤ 1 := by
    intro r hr
    have hq := quantile_near n.toNat i (by omega) hi
    have hcast : (((n.toNat : Int) - 1 : Int) : ℚ) = (n : ℚ) - 1 := by
      rw [Int.toNat_of_nonneg (by omega)]
      push_cast
      rfl
    rw [hcast] at hq
    obtain ⟨hu0, hu1⟩ := quantile_range n.toNat i (by omega) hi
    have hN : (0 : ℚ) < (n : ℚ) - 1 := by
      have : (0 : Int) < n - 1 := by omega
      exact_mod_cast this
    have hx1 : (i : ℚ) / ((n : ℚ) - 1) ≤ 1 := by
      rw [div_le_one hN]
      have : (i : Int) ≤ n - 1 := by omega
      exact_mod_cast this
    exact identity_sample_near _ n.toNat i _ hu0 hu1 hx1 hq hid r hr
  exact ⟨raw, _, rfl, hget k i j hk hi hj, hnear _ (lround_near _), hnear⟩

/-- Witness of C8 on histograms with one count in every bin, 5 slots, slot 3. -/
theorem C8_identity_histogram_witness :
    ∃ (buf : List Int) (v : Int),
      (usedEngine.Compute uniformEnv twoExposures 5 false false 0).get = some buf ∧
      buf[0 * ((5 : Int).toNat * twoExposures.length) + 3 * twoExposures.length + 1]? = some v ∧
      |v - lround (((3 : Nat) : ℚ) / (((5 : Int) : ℚ) - 1) * 255)| ≤ 1 ∧
      ∀ r : Int, |(r : ℚ) - ((3 : Nat) : ℚ) / (((5 : Int) : ℚ) - 1) * 255| ≤ 1 / 2 →
        |v - r| ≤ 1 :=
  C8_identity_histogram uniformEnv usedEngine twoExposures 5 0 (by decide) (by decide) 0 3 1
    (by decide) (by decide) (by decide) (fun b hb => cumulativef_uniform b hb)

/-- C9 as stated fails: with two requested samples, the only populated bin of the exposure
whose pixels are all 0 is bin 0, so its maximum populated bin is 0, and the sample at slot 1
of that exposure is 255. -/
theorem C9_counterexample :
    0 < (Histogram.Calculate quantize (twoExposures.getD 0 default) 256 0).getD 0 0 ∧
    (∀ b : Nat, 0 < (Histogram.Calculate quantize (twoExposures.getD 0 default) 256 0).getD b 0
      → b = 0) ∧
    ∃ buf : List Int,
      ((SubSampleStack.new false).Compute sampleEnv twoExposures 2 false false 0).get = some buf ∧
      buf[0 * (2 * 2) + 1 * 2 + 0]? = some 255 ∧ buf[0 * (2 * 2) + 1 * 2 + 0]? ≠ some 0 := by
  have hbin : ∀ b : Nat,
      (Histogram.Calculate quantize (twoExposures.getD 0 default) 256 0).getD b 0
        = if b < 256 ∧ quantize 0 = b then 4 else 0 := Calculate_constImage quantize 0
  obtain ⟨raw, _, hget, hc⟩ := Compute_valid sampleEnv twoExposures 2 false 0 (by decide)
    (by decide)
  have h1 : raw[0 * (2 * 2) + 1 * 2 + 0]? = some 255 :=
    (hget 0 1 0 (by decide) (by decide) (by decide)).trans
      (congrArg some (quantileSample_last_spec _ 2 (by decide)))
  refine ⟨?_, ?_, raw, ?_, h1, ?_⟩
  · rw [hbin 0, quantize_zero]
    decide
  · intro b hb
    rw [hbin b, quantize_zero] at hb
    by_contra hne
    rw [if_neg (fun h => hne h.2.symm)] at hb
    exact Nat.lt_irrefl 0 hb
  · rw [hc (SubSampleStack.new false) false]
    rfl
  · rw [h1]
    decide

/-- C9 as amended: quantile strategy with `n = 2` (valid stack, no outlier removal, histograms
as the normalised cumulative sums of the bin counts). For every channel and exposure the
sample at slot 0 is the index of the minimum populated bin of the histogram of that exposure
(quantile 0), and the sample at slot 1 (quantile 1) is 255, the clamped position past the
last bin. -/
theorem C9_two_quantiles (counts : Image → Nat → Nat → List Nat)
    (smp : SAMPLER_TYPE → Nat × Nat → Nat → Nat → Nat → RandomSampler) (self : SubSampleStack)
    (stack : List Image) (sub_type : SAMPLER_TYPE) (hE : 1 < stack.length) (k j : Nat)
    (hk : k < (stack.getD 0 default).channels) (hj : j < stack.length) :
    ∃ buf : List Int,
      (self.Compute (specCollaborators counts smp) stack 2 false false sub_type).get = some buf ∧
      (∀ b : Nat, b < 256 → 0 < (counts (stack.getD j default) 256 k).getD b 0 →
        (∀ a : Nat, a < b → (counts (stack.getD j default) 256 k).getD a 0 = 0) →
        buf[k * (2 * stack.length) + 0 * stack.length + j]? = some (b : Int)) ∧
      buf[k * (2 * stack.length) + 1 * stack.length + j]? = some 255 := by
  obtain ⟨raw, _, hget, hc⟩ := Compute_valid (specCollaborators counts smp) stack 2 false
    sub_type hE (by decide)
  rw [hc self false]
  refine ⟨raw, rfl, ?_, ?_⟩
  · intro b hb hpop hmin
    exact (hget k 0 j hk (show 0 < (2 : Int).toNat by decide) hj).trans
      (congrArg some (quantileSample_min_populated _ 2 b hb hpop hmin))
  · exact (hget k 1 j hk (show 1 < (2 : Int).toNat by decide) hj).trans
      (congrArg some (quantileSample_last_spec _ 2 (by decide)))

/-- Witness of the amended C9 on the exposure whose pixels are all 1. -/
theorem C9_two_quantiles_witness :
    ∃ buf : List Int,
      (usedEngine.Compute (specCollaborators (Histogram.Calculate quantize) (fixedSampler 3))
        twoExposures 2 false false 0).get = some buf ∧
      (∀ b : Nat, b < 256 →
        0 < (Histogram.Calculate quantize (twoExposures.getD 1 default) 256 0).getD b 0 →
        (∀ a : Nat, a < b →
          (Histogram.Calculate quantize (twoExposures.getD 1 default) 256 0).getD a 0 = 0) →
        buf[0 * (2 * twoExposures.length) + 0 * twoExposures.length + 1]? = some (b : Int)) ∧
      buf[0 * (2 * twoExposures.length) + 1 * twoExposures.length + 1]? = some 255 :=
  C9_two_quantiles (Histogram.Calculate quantize) (fixedSampler 3) usedEngine twoExposures 0
    (by decide) 0 1 (by decide) (by decide)

/-! ## Every index of the buffer is the index of one channel, slot and exposure -/

theorem index3_exists (C n E idx : Nat) (h : idx < C * (n * E)) :
    ∃ k i j : Nat, k < C ∧ i < n ∧ j < E ∧ idx = k * (n * E) + i * E + j := by
  have hnE : 0 < n * E := by
    rcases Nat.eq_zero_or_pos (n * E) with h0 | hp
    · rw [h0, Nat.mul_zero] at h
      exact absurd h (Nat.not_lt_zero idx)
    · exact hp
  have hE : 0 < E := by
    rcases Nat.eq_zero_or_pos E with h0 | hp
    · rw [h0, Nat.mul_zero] at hnE
      exact absurd hnE (Nat.lt_irrefl 0)
    · exact hp
  refine ⟨idx / (n * E), idx % (n * E) / E, idx % (n * E) % E, ?_, ?_, Nat.mod_lt _ hE, ?_⟩
  · exact Nat.div_lt_of_lt_mul (Nat.lt_of_lt_of_eq h (Nat.mul_comm C (n * E)))
  · exact Nat.div_lt_of_lt_mul (Nat.lt_of_lt_of_eq (Nat.mod_lt _ hnE) (Nat.mul_comm n E))
  · have h1 := Nat.div_add_mod idx (n * E)
    have h2 := Nat.div_add_mod (idx % (n * E)) E
    rw [Nat.mul_comm] at h1 h2
    omega

theorem Compute_valid_all (env : Collaborators) (stack : List Image) (nSamples : Int)
    (bSpatial : Bool) (sub_type : SAMPLER_TYPE) (h1 : 1 < stack.length) (h2 : 1 < nSamples) :
    ∃ raw : List Int,
      raw.length = actualSamples env stack nSamples bSpatial sub_type
        * (stack.getD 0 default).channels * stack.length ∧
      (∀ idx : Nat, idx < raw.length → ∃ k i j : Nat,
        k < (stack.getD 0 default).channels ∧
        i < actualSamples env stack nSamples bSpatial sub_type ∧ j < stack.length ∧
        idx = k * (actualSamples env stack nSamples bSpatial sub_type * stack.length)
          + i * stack.length + j ∧
        raw[idx]? = some (producedSample env stack nSamples bSpatial sub_type k i j)) ∧
      ∀ (self : SubSampleStack) (bRemoveOutliers : Bool),
        self.Compute env stack nSamples bRemoveOutliers bSpatial sub_type =
          { bCheck := true, exposures := stack.length,
            channels := (stack.getD 0 default).channels,
            nSamples := actualSamples env stack nSamples bSpatial sub_type,
            total := if bRemoveOutliers then actualSamples env stack nSamples bSpatial sub_type
              * (stack.getD 0 default).channels * stack.length else 0,
            samples := some (if bRemoveOutliers then raw.map outlierValue else raw) } := by
  obtain ⟨raw, hlen, hget, hc⟩ := Compute_valid env stack nSamples bSpatial sub_type h1 h2
  refine ⟨raw, hlen, ?_, hc⟩
  intro idx hidx
  have hlt : idx < (stack.getD 0 default).channels
      * (actualSamples env stack nSamples bSpatial sub_type * stack.length) := by
    rw [hlen, Nat.mul_assoc, Nat.mul_left_comm] at hidx
    exact hidx
  obtain ⟨k, i, j, hk, hi, hj, he⟩ := index3_exists _ _ _ idx hlt
  refine ⟨k, i, j, hk, hi, hj, he, ?_⟩
  rw [he]
  exact hget k i j hk hi hj

theorem outlierValue_range (v : Int) (h0 : 0 ≤ v) (h1 : v ≤ 255) :
    outlierValue v = -1 ∨ (0 ≤ outlierValue v ∧ outlierValue v ≤ 255) := by
  rw [outlierValue_eq]
  split
  · exact Or.inl rfl
  · exact Or.inr ⟨h0, h1⟩

theorem producedSample_range (env : Collaborators) (stack : List Image) (nSamples : Int)
    (bSpatial : Bool) (sub_type : SAMPLER_TYPE) (k i j : Nat) :
    0 ≤ producedSample env stack nSamples bSpatial sub_type k i j ∧
    producedSample env stack nSamples bSpatial sub_type k i j ≤ 255 := by
  unfold producedSample
  split
  · exact CLAMPi_range _
  · exact CLAMPi_range _

theorem CLAMPi_eq_max_min (x : Int) : CLAMPi x 0 255 = max 0 (min x 255) := by
  unfold CLAMPi
  split
  · omega
  · split <;> omega

/-- C12: entry range. After any successful `Compute`, for both strategies and for arbitrary
pixel values and cumulative arrays, every buffer entry is either an integer in the range from
0 to 255 or the sentinel -1; without outlier removal no entry is -1, all lie in the range from
0 to 255. -/
theorem C12_entry_range (env : Collaborators) (self : SubSampleStack) (stack : List Image)
    (n : Int) (bRemoveOutliers bSpatial : Bool) (sub_type : SAMPLER_TYPE)
    (hE : 1 < stack.length) (hn : 1 < n) :
    ∃ buf : List Int,
      (self.Compute env stack n bRemoveOutliers bSpatial sub_type).get = some buf ∧
      (∀ v : Int, v ∈ buf → v = -1 ∨ (0 ≤ v ∧ v ≤ 255)) ∧
      (bRemoveOutliers = false → ∀ v : Int, v ∈ buf → 0 ≤ v ∧ v ≤ 255) := by
  obtain ⟨raw, _, hall, hc⟩ := Compute_valid_all env stack n bSpatial sub_type hE hn
  rw [hc self bRemoveOutliers]
  have hraw : ∀ v : Int, v ∈ raw → 0 ≤ v ∧ v ≤ 255 := by
    intro v hv
    obtain ⟨idx, hidx, hv2⟩ := List.mem_iff_getElem.mp hv
    obtain ⟨k, i, j, _, _, _, _, hent⟩ := hall idx hidx
    rw [List.getElem?_eq_getElem hidx, hv2] at hent
    rw [Option.some.inj hent]
    exact producedSample_range env stack n bSpatial sub_type k i j
  cases bRemoveOutliers with
  | false =>
    refine ⟨raw, rfl, ?_, ?_⟩
    · intro v hv
      exact Or.inr (hraw v hv)
    · intro _ v hv
      exact hraw v hv
  | true =>
    refine ⟨raw.map outlierValue, rfl, ?_, ?_⟩
    · intro v hv
      obtain ⟨w, hw, hwv⟩ := List.mem_map.mp hv
      rw [← hwv]
      exact outlierValue_range w (hraw w hw).1 (hraw w hw).2
    · intro hcon
      exact absurd hcon (by decide)

/-- Witness of C12: the quantile strategy with outlier removal on three constant exposures. -/
theorem C12_entry_range_witness :
    ∃ buf : List Int,
      (usedEngine.Compute sampleEnv threeExposures 4 true false 0).get = some buf ∧
      (∀ v : Int, v ∈ buf → v = -1 ∨ (0 ≤ v ∧ v ≤ 255)) ∧
      (true = false → ∀ v : Int, v ∈ buf → 0 ≤ v ∧ v ≤ 255) :=
  C12_entry_range sampleEnv usedEngine threeExposures 4 true false 0 (by decide) (by decide)

/-! ## `Compute` does not depend on the prior state -/

theorem Compute_congr_sampler (hist : Image → Nat → Nat → Histogram)
    (smp1 smp2 : SAMPLER_TYPE → Nat × Nat → Nat → Nat → Nat → RandomSampler)
    (s1 s2 : SubSampleStack) (stack : List Image) (n : Int)
    (bRemoveOutliers bSpatial : Bool) (sub_type : SAMPLER_TYPE)
    (hcount : (smp1 sub_type ((stack.getD 0 default).width, (stack.getD 0 default).height)
        n.toNat 1 0).getSamplesPerLevel 0 =
      (smp2 sub_type ((stack.getD 0 default).width, (stack.getD 0 default).height)
        n.toNat 1 0).getSamplesPerLevel 0)
    (hcoord : ∀ i : Nat,
      i < (smp1 sub_type ((stack.getD 0 default).width, (stack.getD 0 default).height)
        n.toNat 1 0).getSamplesPerLevel 0 →
      (smp1 sub_type ((stack.getD 0 default).width, (stack.getD 0 default).height)
        n.toNat 1 0).getSampleAt 0 i =
      (smp2 sub_type ((stack.getD 0 default).width, (stack.getD 0 default).height)
        n.toNat 1 0).getSampleAt 0 i) :
    s1.Compute ⟨hist, smp1⟩ stack n bRemoveOutliers bSpatial sub_type =
      s2.Compute ⟨hist, smp2⟩ stack n bRemoveOutliers bSpatial sub_type := by
  by_cases hv : 1 < stack.length ∧ 1 < n
  · obtain ⟨raw1, hl1, hall1, hc1⟩ :=
      Compute_valid_all ⟨hist, smp1⟩ stack n bSpatial sub_type hv.1 hv.2
    obtain ⟨raw2, hl2, hget2, hc2⟩ :=
      Compute_valid ⟨hist, smp2⟩ stack n bSpatial sub_type hv.1 hv.2
    have ha : actualSamples ⟨hist, smp1⟩ stack n bSpatial sub_type
        = actualSamples ⟨hist, smp2⟩ stack n bSpatial sub_type := by
      cases bSpatial with
      | false => rfl
      | true => exact hcount
    have hp : ∀ k i j : Nat, i < actualSamples ⟨hist, smp1⟩ stack n bSpatial sub_type →
        producedSample ⟨hist, smp1⟩ stack n bSpatial sub_type k i j
          = producedSample ⟨hist, smp2⟩ stack n bSpatial sub_type k i j := by
      intro k i j hi
      cases bSpatial with
      | false => rfl
      | true =>
        show spatialSample _ ((smp1 sub_type _ n.toNat 1 0).getSampleAt 0 i) k
          = spatialSample _ ((smp2 sub_type _ n.toNat 1 0).getSampleAt 0 i) k
        rw [hcoord i hi]
    have hraw : raw1 = raw2 := by
      apply List.ext_getElem?
      intro idx
      by_cases hidx : idx < raw1.length
      · obtain ⟨k, i, j, hk, hi, hj, he, hent⟩ := hall1 idx hidx
        rw [hent, he, ha, hp k i j hi]
        exact (hget2 k i j hk (ha ▸ hi) hj).symm
      · rw [List.getElem?_eq_none (Nat.le_of_not_lt hidx),
          List.getElem?_eq_none (by rw [hl2, ← ha, ← hl1]; exact Nat.le_of_not_lt hidx)]
    rw [hc1 s1 bRemoveOutliers, hc2 s2 bRemoveOutliers, ha, hraw]
  · rw [Compute_invalid _ s1 stack n bRemoveOutliers bSpatial sub_type hv,
      Compute_invalid _ s2 stack n bRemoveOutliers bSpatial sub_type hv]

theorem Compute_prior_irrelevant (env : Collaborators) (s1 s2 : SubSampleStack)
    (stack : List Image) (n : Int) (bRemoveOutliers bSpatial : Bool) (sub_type : SAMPLER_TYPE) :
    s1.Compute env stack n bRemoveOutliers bSpatial sub_type =
      s2.Compute env stack n bRemoveOutliers bSpatial sub_type :=
  Compute_congr_sampler env.histogram env.newRandomSampler env.newRandomSampler s1 s2 stack n
    bRemoveOutliers bSpatial sub_type rfl (fun _ _ => rfl)

theorem Compute_bCheck (env : Collaborators) (self : SubSampleStack) (stack : List Image)
    (n : Int) (bRemoveOutliers bSpatial : Bool) (sub_type : SAMPLER_TYPE)
    (h : (self.Compute env stack n bRemoveOutliers bSpatial sub_type).bCheck = true) :
    1 < stack.length ∧ 1 < n := by
  by_contra hv
  rw [Compute_invalid env self stack n bRemoveOutliers bSpatial sub_type hv] at h
  exact absurd h (by decide)

/-! ## Monotonicity of the quantile lookup -/

theorem quantile_mono (n i1 i2 : Nat) (hn : 2 ≤ n) (h : i1 ≤ i2) :
    quantile n i1 ≤ quantile n i2 := by
  unfold quantile
  have hd : (0 : ℚ) ≤ float32 (((n : Int) - 1 : Int) : ℚ) :=
    le_trans zero_le_one (divisor_pos n hn)
  apply float32_mono _ _ (div_nonneg (float32_nonneg _ (Nat.cast_nonneg i1)) hd)
  apply div_le_div_of_nonneg_right _ hd
  apply float32_mono _ _ (Nat.cast_nonneg i1)
  exact_mod_cast h

theorem upper_bound_mono (a : Nat → ℚ) (last : Nat) (u1 u2 : ℚ) (hu : u1 ≤ u2)
    (hmono : ∀ x y : Nat, x ≤ y → y < last → a x ≤ a y) :
    upper_bound a 0 last u1 ≤ upper_bound a 0 last u2 := by
  obtain ⟨_, p2, _⟩ := upper_bound_least a last u1 hmono
  obtain ⟨q1, _, q3⟩ := upper_bound_least a last u2 hmono
  by_contra hcon
  have hlt : upper_bound a 0 last u2 < upper_bound a 0 last u1 := Nat.lt_of_not_le hcon
  have hlast : upper_bound a 0 last u2 < last := by
    have := (upper_bound_least a last u1 hmono).1
    omega
  have h2 := q3 _ (Nat.le_refl _) hlast
  have h1 := p2 _ hlt
  exact h1 (lt_of_le_of_lt hu h2)

theorem CLAMPi_mono (x y : Int) (h : x ≤ y) : CLAMPi x 0 255 ≤ CLAMPi y 0 255 := by
  rw [CLAMPi_eq_max_min, CLAMPi_eq_max_min]
  omega

theorem quantileSample_mono (bin_c : Nat → ℚ) (n i1 i2 : Nat) (hn : 2 ≤ n) (h : i1 ≤ i2)
    (hmono : ∀ x y : Nat, x ≤ y → y < 256 → bin_c x ≤ bin_c y) :
    quantileSample bin_c n i1 ≤ quantileSample bin_c n i2 := by
  unfold quantileSample
  apply CLAMPi_mono
  exact_mod_cast upper_bound_mono bin_c 256 _ _ (quantile_mono n i1 i2 hn h) hmono

/-- C13: determinism and independence from the prior state. For every two engine states and
every argument tuple, with point samplers that give the same count and the same coordinates
for the slots below that count, `Compute` from the one state and `Compute` from the other
yield the same state: the same sample count, channel count, exposure count and buffer. In
particular running `Compute` again with the same arguments reproduces the same buffer, and a
buffer held before the call never influences the new one. -/
theorem C13_determinism (hist : Image → Nat → Nat → Histogram)
    (smp1 smp2 : SAMPLER_TYPE → Nat × Nat → Nat → Nat → Nat → RandomSampler)
    (s1 s2 : SubSampleStack) (stack : List Image) (n : Int)
    (bRemoveOutliers bSpatial : Bool) (sub_type : SAMPLER_TYPE)
    (hcount : (smp1 sub_type ((stack.getD 0 default).width, (stack.getD 0 default).height)
        n.toNat 1 0).getSamplesPerLevel 0 =
      (smp2 sub_type ((stack.getD 0 default).width, (stack.getD 0 default).height)
        n.toNat 1 0).getSamplesPerLevel 0)
    (hcoord : ∀ i : Nat,
      i < (smp1 sub_type ((stack.getD 0 default).width, (stack.getD 0 default).height)
        n.toNat 1 0).getSamplesPerLevel 0 →
      (smp1 sub_type ((stack.getD 0 default).width, (stack.getD 0 default).height)
        n.toNat 1 0).getSampleAt 0 i =
      (smp2 sub_type ((stack.getD 0 default).width, (stack.getD 0 default).height)
        n.toNat 1 0).getSampleAt 0 i) :
    s1.Compute ⟨hist, smp1⟩ stack n bRemoveOutliers bSpatial sub_type =
      s2.Compute ⟨hist, smp2⟩ stack n bRemoveOutliers bSpatial sub_type ∧
    (s1.Compute ⟨hist, smp1⟩ stack n bRemoveOutliers bSpatial sub_type).getNSamples =
      (s2.Compute ⟨hist, smp2⟩ stack n bRemoveOutliers bSpatial sub_type).getNSamples ∧
    (s1.Compute ⟨hist, smp1⟩ stack n bRemoveOutliers bSpatial sub_type).channels =
      (s2.Compute ⟨hist, smp2⟩ stack n bRemoveOutliers bSpatial sub_type).channels ∧
    (s1.Compute ⟨hist, smp1⟩ stack n bRemoveOutliers bSpatial sub_type).exposures =
      (s2.Compute ⟨hist, smp2⟩ stack n bRemoveOutliers bSpatial sub_type).exposures ∧
    (s1.Compute ⟨hist, smp1⟩ stack n bRemoveOutliers bSpatial sub_type).get =
      (s2.Compute ⟨hist, smp2⟩ stack n bRemoveOutliers bSpatial sub_type).get ∧
    ((s1.Compute ⟨hist, smp1⟩ stack n bRemoveOutliers bSpatial sub_type).Compute ⟨hist, smp1⟩
        stack n bRemoveOutliers bSpatial sub_type).get =
      (s1.Compute ⟨hist, smp1⟩ stack n bRemoveOutliers bSpatial sub_type).get := by
  have h := Compute_congr_sampler hist smp1 smp2 s1 s2 stack n bRemoveOutliers bSpatial sub_type
    hcount hcoord
  refine ⟨h, ?_, ?_, ?_, ?_, ?_⟩
  · rw [h]
  · rw [h]
  · rw [h]
  · rw [h]
  · rw [Compute_prior_irrelevant ⟨hist, smp1⟩
      (s1.Compute ⟨hist, smp1⟩ stack n bRemoveOutliers bSpatial sub_type) s1]

/-- Witness of C13: an engine that holds a buffer and a fresh one, with two point samplers that
agree on the three samples they hold and differ past them; spatial strategy. -/
theorem C13_determinism_witness :
    usedEngine.Compute ⟨sampleEnv.histogram, fixedSampler 3⟩ twoExposures 2 true true 0 =
      (SubSampleStack.new false).Compute ⟨sampleEnv.histogram, boundedSampler 3⟩ twoExposures 2
        true true 0 :=
  (C13_determinism sampleEnv.histogram (fixedSampler 3) (boundedSampler 3) usedEngine
    (SubSampleStack.new false) twoExposures 2 true true 0 rfl
    (fun i hi => by
      have h3 : i < 3 := hi
      show ((0 : Int), (0 : Int)) = if i < 3 then (0, 0) else (1, 1)
      rw [if_pos h3])).1

/-- C14: division guard. On every call of `Compute` that passes the check and takes the
quantile strategy, the sample count `m` that the quantile sampler uses is the requested count,
the divisor `m - 1` of `u_i = i / (m - 1)` is at least 1 (never 0), also as the float
`float(m - 1)` by which the code divides, and every `u_i` with `i < m` lies between 0 and 1,
with `u_0 = 0` and `u_(m-1) = 1`; `u_i` is the float quotient `float(i) / float(m - 1)`, within
`2 ^ (-21)` of `i / (m - 1)`. -/
theorem C14_division_guard (env : Collaborators) (self : SubSampleStack) (stack : List Image)
    (n : Int) (bRemoveOutliers : Bool) (sub_type : SAMPLER_TYPE)
    (hreach : (self.Compute env stack n bRemoveOutliers false sub_type).bCheck = true) :
    ((self.Compute env stack n bRemoveOutliers false sub_type).getNSamples : Int) = n ∧
    1 ≤ ((self.Compute env stack n bRemoveOutliers false sub_type).getNSamples : Int) - 1 ∧
    ((((self.Compute env stack n bRemoveOutliers false sub_type).getNSamples : Int) - 1 : Int)
      : ℚ) ≠ 0 ∧
    1 ≤ float32 ((((self.Compute env stack n bRemoveOutliers false sub_type).getNSamples : Int)
      - 1 : Int) : ℚ) ∧
    quantile (self.Compute env stack n bRemoveOutliers false sub_type).getNSamples 0 = 0 ∧
    quantile (self.Compute env stack n bRemoveOutliers false sub_type).getNSamples
      ((self.Compute env stack n bRemoveOutliers false sub_type).getNSamples - 1) = 1 ∧
    ∀ i : Nat, i < (self.Compute env stack n bRemoveOutliers false sub_type).getNSamples →
      0 ≤ quantile (self.Compute env stack n bRemoveOutliers false sub_type).getNSamples i ∧
      quantile (self.Compute env stack n bRemoveOutliers false sub_type).getNSamples i ≤ 1 ∧
      quantile (self.Compute env stack n bRemoveOutliers false sub_type).getNSamples i
        = float32 (float32 (i : ℚ) / float32 ((n : ℚ) - 1)) ∧
      |quantile (self.Compute env stack n bRemoveOutliers false sub_type).getNSamples i
        - (i : ℚ) / ((n : ℚ) - 1)| ≤ 1 / 2097152 := by
  obtain ⟨hE, hn⟩ := Compute_bCheck env self stack n bRemoveOutliers false sub_type hreach
  obtain ⟨raw, _, _, hc⟩ := Compute_valid env stack n false sub_type hE hn
  rw [hc self bRemoveOutliers]
  have hm : (n.toNat : Int) = n := Int.toNat_of_nonneg (by omega)
  have h2 : 2 ≤ n.toNat := by omega
  have hcast : (((n.toNat : Int) - 1 : Int) : ℚ) = (n : ℚ) - 1 := by
    rw [hm]
    push_cast
    rfl
  show ((n.toNat : Nat) : Int) = n ∧ 1 ≤ ((n.toNat : Nat) : Int) - 1 ∧
    ((((n.toNat : Nat) : Int) - 1 : Int) : ℚ) ≠ 0 ∧
    1 ≤ float32 ((((n.toNat : Nat) : Int) - 1 : Int) : ℚ) ∧ quantile n.toNat 0 = 0 ∧
    quantile n.toNat (n.toNat - 1) = 1 ∧
    ∀ i : Nat, i < n.toNat → 0 ≤ quantile n.toNat i ∧ quantile n.toNat i ≤ 1 ∧
      quantile n.toNat i = float32 (float32 (i : ℚ) / float32 ((n : ℚ) - 1)) ∧
      |quantile n.toNat i - (i : ℚ) / ((n : ℚ) - 1)| ≤ 1 / 2097152
  refine ⟨hm, by omega, ?_, divisor_pos _ h2, quantile_zero _, quantile_last _ h2, ?_⟩
  · have : ((n.toNat : Nat) : Int) - 1 ≠ 0 := by omega
    exact_mod_cast this
  · intro i hi
    have hq := quantile_near n.toNat i h2 hi
    rw [hcast] at hq
    exact ⟨(quantile_range _ i h2 hi).1, (quantile_range _ i h2 hi).2, quantile_eq n i hn, hq⟩

/-- Witness of C14: the quantile strategy with five requested samples. -/
theorem C14_division_guard_witness :
    ((usedEngine.Compute sampleEnv twoExposures 5 false false 0).getNSamples : Int) = 5 ∧
    1 ≤ ((usedEngine.Compute sampleEnv twoExposures 5 false false 0).getNSamples : Int) - 1 :=
  match C14_division_guard sampleEnv usedEngine twoExposures 5 false 0
    ((Compute_valid sampleEnv twoExposures 5 false 0 (by decide) (by decide)).elim
      (fun _ h => by rw [h.2.2 usedEngine false])) with
  | ⟨h1, h2, _⟩ => ⟨h1, h2⟩

/-- C15: `Destroy` resets to the empty state. From every engine state, after `Destroy` the
sample count, the channel count, the exposure count and `total` are 0 and no buffer is held;
`Destroy` followed by `Destroy` equals a single `Destroy`; and the state after `Destroy` is a
freshly constructed state: every member that the constructor assigns has the value the
constructor gives it (the constructor leaves `bCheck` indeterminate and `Destroy` leaves it as
it was), and `Compute` behaves from it as from any freshly constructed engine. -/
theorem C15_destroy_resets (self : SubSampleStack) :
    self.Destroy.getNSamples = 0 ∧ self.Destroy.channels = 0 ∧ self.Destroy.exposures = 0 ∧
    self.Destroy.total = 0 ∧ self.Destroy.get = none ∧
    self.Destroy.Destroy = self.Destroy ∧
    self.Destroy = SubSampleStack.new self.bCheck ∧
    (∀ b : Bool,
      self.Destroy.getNSamples = (SubSampleStack.new b).getNSamples ∧
      self.Destroy.channels = (SubSampleStack.new b).channels ∧
      self.Destroy.exposures = (SubSampleStack.new b).exposures ∧
      self.Destroy.total = (SubSampleStack.new b).total ∧
      self.Destroy.get = (SubSampleStack.new b).get ∧
      ∀ (env : Collaborators) (stack : List Image) (n : Int) (bRemoveOutliers bSpatial : Bool)
        (sub_type : SAMPLER_TYPE),
        self.Destroy.Compute env stack n bRemoveOutliers bSpatial sub_type =
          (SubSampleStack.new b).Compute env stack n bRemoveOutliers bSpatial sub_type) :=
  ⟨rfl, rfl, rfl, rfl, rfl, rfl, rfl, fun b => ⟨rfl, rfl, rfl, rfl, rfl,
    fun env stack n rm sp sub =>
      Compute_prior_irrelevant env self.Destroy (SubSampleStack.new b) stack n rm sp sub⟩⟩

/-- C17: quantile strategy monotonicity. Without outlier removal, for every channel `k` and
exposure `j` whose cumulative array is non-decreasing, the samples are non-decreasing in the
slot index: for all slots `i1 ≤ i2 < n` the entry at `(k, i1, j)` is at most the entry at
`(k, i2, j)`. -/
theorem C17_quantile_monotone (env : Collaborators) (self : SubSampleStack)
    (stack : List Image) (n : Int) (sub_type : SAMPLER_TYPE)
    (hE : 1 < stack.length) (hn : 1 < n) (k j : Nat)
    (hk : k < (stack.getD 0 default).channels) (hj : j < stack.length)
    (hmono : ∀ x y : Nat, x ≤ y → y < 256 →
      (env.histogram (stack.getD j default) 256 k).getCumulativef x ≤
        (env.histogram (stack.getD j default) 256 k).getCumulativef y)
    (i1 i2 : Nat) (h12 : i1 ≤ i2) (hi2 : i2 < n.toNat) :
    ∃ (buf : List Int) (v1 v2 : Int),
      (self.Compute env stack n false false sub_type).get = some buf ∧
      buf[k * (n.toNat * stack.length) + i1 * stack.length + j]? = some v1 ∧
      buf[k * (n.toNat * stack.length) + i2 * stack.length + j]? = some v2 ∧
      v1 ≤ v2 := by
  obtain ⟨raw, _, hget, hc⟩ := Compute_valid env stack n false sub_type hE hn
  rw [hc self false]
  exact ⟨raw, _, _, rfl, hget k i1 j hk (show i1 < n.toNat by omega) hj, hget k i2 j hk hi2 hj,
    quantileSample_mono _ n.toNat i1 i2 (by omega) h12 hmono⟩

/-- Witness of C17: slots 1 and 3 of five, on the exposure whose pixels are all 1. -/
theorem C17_quantile_monotone_witness :
    ∃ (buf : List Int) (v1 v2 : Int),
      (usedEngine.Compute sampleEnv twoExposures 5 false false 0).get = some buf ∧
      buf[0 * ((5 : Int).toNat * twoExposures.length) + 1 * twoExposures.length + 1]? = some v1 ∧
      buf[0 * ((5 : Int).toNat * twoExposures.length) + 3 * twoExposures.length + 1]? = some v2 ∧
      v1 ≤ v2 :=
  C17_quantile_monotone sampleEnv usedEngine twoExposures 5 0 (by decide) (by decide) 0 1
    (by decide) (by decide) (fun x y h _ => cumulativef_mono _ x y h) 1 3 (by decide) (by decide)

/-! ## Logged loops -/

end pic
